import Mathlib

/-!
Verification of the RP-WHY baseline analysis tool (`rp-why/rp_why_baseline.py`).

The development shallowly embeds the classification-and-aggregation pipeline of
the tool: the DOK tier classifier `classify_dok`, the stage estimator
`estimate_stage` with its threshold table `STAGE_THRESHOLDS`, the trajectory
computation `calculate_trajectory`, the weekly aggregation
`get_weekly_breakdown`, the snapshot builder `generate_baseline`, and the
persistence pair `save_baseline` / `load_baseline`.

Modelling conventions:
* Python floats are modelled as exact rationals (`ℚ`); Python's builtin
  `round(x, d)` (round half to even) is modelled by `pyRound`.
* The regular-expression engine (`re.search`) is external to the repository;
  it is modelled by an abstract function `reSearch : String → String → Option
  String` returning the matched fragment (`match.group()`) of a pattern in a
  text, or `none` when the pattern does not match.  The pattern tables are
  embedded literally.
* `datetime` parsing plus `strftime('%Y-W%W')` is external as well and is
  modelled by an abstract function `weekKey : String → Option String`
  (`none` models the `ValueError`/`TypeError` caught by the source).
* The JSON (de)serialisation used by `save_baseline`/`load_baseline` is
  modelled executably: a JSON document type, a printer and a parser, with the
  file system reduced to the single slot holding the baseline file's content.
-/

/-- Round a rational to the nearest integer with ties going to the even
integer: the rounding mode of Python's builtin `round`. -/
def rndInt (x : ℚ) : ℤ :=
  if x - ⌊x⌋ < 1/2 then ⌊x⌋
  else if 1/2 < x - ⌊x⌋ then ⌊x⌋ + 1
  else if Even ⌊x⌋ then ⌊x⌋ else ⌊x⌋ + 1

/-- Python's `round(x, d)` on exact rationals. -/
def pyRound (x : ℚ) (d : ℕ) : ℚ := (rndInt (x * 10 ^ d) : ℚ) / 10 ^ d

theorem rndInt_intCast (n : ℤ) : rndInt n = n := by
  unfold rndInt
  rw [Int.floor_intCast]
  norm_num

theorem abs_rndInt_sub_le (x : ℚ) : |(rndInt x : ℚ) - x| ≤ 1/2 := by
  have h1 : (⌊x⌋ : ℚ) ≤ x := Int.floor_le x
  have h2 : x < ⌊x⌋ + 1 := Int.lt_floor_add_one x
  unfold rndInt
  split_ifs <;> push_cast <;> rw [abs_le] <;> constructor <;> linarith

theorem rndInt_mono : Monotone rndInt := by
  intro x y h
  have hn : ⌊x⌋ ≤ ⌊y⌋ := Int.floor_mono h
  have hx1 : (⌊x⌋ : ℚ) ≤ x := Int.floor_le x
  have hy2 : y < ⌊y⌋ + 1 := Int.lt_floor_add_one y
  unfold rndInt
  rcases eq_or_lt_of_le hn with heq | hlt
  · have hf : x - ⌊x⌋ ≤ y - ⌊x⌋ := by linarith
    rw [← heq]
    split_ifs <;> first | omega | (exfalso; push_neg at *; linarith)
  · split_ifs <;> omega

theorem abs_pyRound_sub_le (x : ℚ) (d : ℕ) :
    |pyRound x d - x| ≤ 1 / (2 * 10 ^ d) := by
  have h10 : (0:ℚ) < 10 ^ d := by positivity
  have h := abs_rndInt_sub_le (x * 10 ^ d)
  have heq : pyRound x d - x = ((rndInt (x * 10 ^ d) : ℚ) - x * 10 ^ d) / 10 ^ d := by
    unfold pyRound
    field_simp
    ring
  rw [heq, abs_div, abs_of_pos h10, div_le_div_iff h10 (by positivity)]
  nlinarith [abs_nonneg ((rndInt (x * 10 ^ d) : ℚ) - x * 10 ^ d)]

theorem pyRound_mono (d : ℕ) {x y : ℚ} (h : x ≤ y) : pyRound x d ≤ pyRound y d := by
  have h10 : (0:ℚ) < 10 ^ d := by positivity
  unfold pyRound
  gcongr
  exact_mod_cast rndInt_mono (mul_le_mul_of_nonneg_right h (le_of_lt h10))

theorem pyRound_intCast (n : ℤ) (d : ℕ) : pyRound (n : ℚ) d = n := by
  have h10 : (0:ℚ) ≠ 10 ^ d := by positivity
  unfold pyRound
  have : ((n : ℚ) * 10 ^ d) = ((n * 10 ^ d : ℤ) : ℚ) := by push_cast; ring
  rw [this, rndInt_intCast]
  push_cast
  field_simp

/-- The DOK trigger-pattern table of the source (`DOK_PATTERNS`), with the
regular-expression source strings kept verbatim. -/
def DOK_PATTERNS : List (ℕ × List String) := [
  (1, ["\\bhow do i\\b", "\\bwhat is\\b", "\\bsyntax\\b", "\\bcommand\\b",
       "\\bwhere\\b", "\\bshow me\\b", "\\bexample\\b", "\\bhelp with\\b",
       "\\bwhat\\\x27s the\\b", "\\bhow to\\b", "\\bcan you show\\b"]),
  (2, ["\\bimplement\\b", "\\bdebug\\b", "\\bfix\\b", "\\brefactor\\b",
       "\\btest\\b", "\\badd\\b", "\\bupdate\\b", "\\bcreate\\b",
       "\\bbuild\\b", "\\bwrite\\b", "\\bmodify\\b", "\\bchange\\b",
       "\\bremove\\b", "\\bdelete\\b", "\\binstall\\b", "\\bsetup\\b"]),
  (3, ["\\bdesign\\b", "\\barchitect\\b", "\\banalyze\\b", "\\bcompare\\b",
       "\\btrade-?off\\b", "\\bbest approach\\b", "\\bevaluate\\b",
       "\\bstrategy\\b", "\\bwhy\\b", "\\bimplications\\b", "\\bshould we\\b",
       "\\breview\\b", "\\boptimize\\b", "\\bimprove\\b", "\\balternative\\b",
       "\\bpros and cons\\b", "\\bdecision\\b"]),
  (4, ["\\bresearch\\b", "\\bnovel\\b", "\\binnovate\\b", "\\btransform\\b",
       "\\bframework\\b", "\\blong-term\\b", "\\bevolve\\b", "\\bvision\\b",
       "\\bbreakthrough\\b", "\\bsystematic\\b", "\\bparadigm\\b",
       "\\bfundamental\\b", "\\bpioneer\\b", "\\bgroundbreaking\\b"])]

/-- The pattern list of one tier. -/
def patternsFor (level : ℕ) : List String := (DOK_PATTERNS.lookup level).getD []

/-- Number of patterns of a tier that match (each pattern counts at most once,
mirroring `scores[level] += 1` guarded by `re.search`). -/
def matchCount (reSearch : String → String → Option String) (textLower : String)
    (patterns : List String) : ℕ :=
  patterns.countP (fun p => (reSearch p textLower).isSome)

/-- The `scores` dictionary of `classify_dok`, as the (tier, count) list in
tier order. -/
def dokScores (reSearch : String → String → Option String) (textLower : String) :
    List (ℕ × ℕ) :=
  DOK_PATTERNS.map (fun lp => (lp.1, matchCount reSearch textLower lp.2))

/-- The `matched` fragment list of `classify_dok`: for every matching pattern
the stripped matched fragment, in table order. -/
def dokMatched (reSearch : String → String → Option String) (textLower : String) :
    List String :=
  DOK_PATTERNS.flatMap
    (fun lp => lp.2.filterMap (fun p => (reSearch p textLower).map (fun m => m.trim)))

/-- `total_matches = sum(scores.values())`. -/
def dokTotal (reSearch : String → String → Option String) (textLower : String) : ℕ :=
  ((dokScores reSearch textLower).map Prod.snd).sum

/-- `max_score = max(scores.values())`. -/
def dokMaxScore (reSearch : String → String → Option String) (textLower : String) : ℕ :=
  ((dokScores reSearch textLower).map Prod.snd).foldl max 0

/-- `level = max(k for k, v in scores.items() if v == max_score)`. -/
def dokLevel (reSearch : String → String → Option String) (textLower : String) : ℕ :=
  (((dokScores reSearch textLower).filter
      (fun kv => kv.2 == dokMaxScore reSearch textLower)).map Prod.fst).foldl max 0

/-- `RPWhyBaseline.classify_dok`: classify a text by DOK level, returning
`(dok_level, confidence, matched_patterns)`.  The argument is an
`Option String` so that an absent (`None`) text is representable; `if not
text` in the source is true for both `None` and the empty string. -/
def classify_dok (reSearch : String → String → Option String) (text : Option String) :
    ℕ × ℚ × List String :=
  match text with
  | none => (2, 3/10, [])
  | some t =>
    if t.isEmpty then (2, 3/10, [])
    else
      let text_lower := t.toLower
      if dokTotal reSearch text_lower = 0 then (2, 3/10, [])
      else
        let confidence : ℚ :=
          (dokMaxScore reSearch text_lower : ℚ) / (dokTotal reSearch text_lower : ℚ)
        (dokLevel reSearch text_lower, min confidence 1,
          (dokMatched reSearch text_lower).take 5)

theorem dokScores_eq (reSearch : String → String → Option String) (tl : String) :
    dokScores reSearch tl =
      [(1, matchCount reSearch tl (patternsFor 1)),
       (2, matchCount reSearch tl (patternsFor 2)),
       (3, matchCount reSearch tl (patternsFor 3)),
       (4, matchCount reSearch tl (patternsFor 4))] := rfl

theorem dokTotal_eq (reSearch : String → String → Option String) (tl : String) :
    dokTotal reSearch tl =
      matchCount reSearch tl (patternsFor 1) + matchCount reSearch tl (patternsFor 2)
      + matchCount reSearch tl (patternsFor 3) + matchCount reSearch tl (patternsFor 4) := by
  unfold dokTotal
  rw [dokScores_eq]
  simp [List.foldl]
  try omega

theorem dokMaxScore_eq (reSearch : String → String → Option String) (tl : String) :
    dokMaxScore reSearch tl =
      max (max (max (matchCount reSearch tl (patternsFor 1))
        (matchCount reSearch tl (patternsFor 2)))
        (matchCount reSearch tl (patternsFor 3)))
        (matchCount reSearch tl (patternsFor 4)) := by
  unfold dokMaxScore
  rw [dokScores_eq]
  simp [List.foldl]
  try omega

theorem le_foldl_max (l : List ℕ) (a : ℕ) : a ≤ l.foldl max a := by
  induction l generalizing a with
  | nil => exact le_refl a
  | cons b t ih => exact le_trans (le_max_left a b) (ih (max a b))

theorem foldl_max_le_of_mem {l : List ℕ} {x : ℕ} (hx : x ∈ l) (a : ℕ) :
    x ≤ l.foldl max a := by
  induction l generalizing a with
  | nil => cases hx
  | cons b t ih =>
    rcases List.mem_cons.mp hx with rfl | h
    · exact le_trans (le_max_right a x) (le_foldl_max t (max a x))
    · exact ih h (max a b)

theorem foldl_max_mem (l : List ℕ) (a : ℕ) : l.foldl max a = a ∨ l.foldl max a ∈ l := by
  induction l generalizing a with
  | nil => left; rfl
  | cons b t ih =>
    show t.foldl max (max a b) = a ∨ t.foldl max (max a b) ∈ b :: t
    rcases ih (max a b) with h | h
    · rcases max_choice a b with hab | hab
      · left; rw [h, hab]
      · right; rw [h, hab]; exact List.mem_cons_self b t
    · right; exact List.mem_cons_of_mem b h

theorem dokScores_mem {reSearch : String → String → Option String} {tl : String}
    {kv : ℕ × ℕ} (h : kv ∈ dokScores reSearch tl) :
    kv.1 ∈ ([1, 2, 3, 4] : List ℕ)
    ∧ kv.2 = matchCount reSearch tl (patternsFor kv.1) := by
  rw [dokScores_eq] at h
  fin_cases h <;> exact ⟨by simp, rfl⟩

theorem dokLevel_spec (reSearch : String → String → Option String) (tl : String)
    (htot : 0 < dokTotal reSearch tl) :
    dokLevel reSearch tl ∈ ([1, 2, 3, 4] : List ℕ)
    ∧ matchCount reSearch tl (patternsFor (dokLevel reSearch tl)) = dokMaxScore reSearch tl
    ∧ ∀ k ∈ ([1, 2, 3, 4] : List ℕ),
        matchCount reSearch tl (patternsFor k) = dokMaxScore reSearch tl
          → k ≤ dokLevel reSearch tl := by
  have hattain : ∃ kv ∈ dokScores reSearch tl, kv.2 = dokMaxScore reSearch tl := by
    rcases foldl_max_mem ((dokScores reSearch tl).map Prod.snd) 0 with h | h
    · exfalso
      have hall : ∀ v ∈ (dokScores reSearch tl).map Prod.snd, v = 0 := by
        intro v hv
        have h1 := foldl_max_le_of_mem hv 0
        have h2 : dokMaxScore reSearch tl = 0 := h
        unfold dokMaxScore at h2
        omega
      have hz : dokTotal reSearch tl = 0 := List.sum_eq_zero hall
      omega
    · obtain ⟨kv, hkv, hsnd⟩ := List.mem_map.mp h
      exact ⟨kv, hkv, hsnd⟩
  obtain ⟨kv, hkv, hkvmax⟩ := hattain
  have hkvfilter : kv ∈ (dokScores reSearch tl).filter
      (fun kv => kv.2 == dokMaxScore reSearch tl) :=
    List.mem_filter.mpr ⟨hkv, by simp [hkvmax]⟩
  have hkeymem : kv.1 ∈ ((dokScores reSearch tl).filter
      (fun kv => kv.2 == dokMaxScore reSearch tl)).map Prod.fst :=
    List.mem_map_of_mem Prod.fst hkvfilter
  have hkv1 : 1 ≤ kv.1 := by
    have h14 := (dokScores_mem hkv).1
    simp at h14
    omega
  have hlow : kv.1 ≤ dokLevel reSearch tl := foldl_max_le_of_mem hkeymem 0
  have hmem : dokLevel reSearch tl ∈ ((dokScores reSearch tl).filter
      (fun kv => kv.2 == dokMaxScore reSearch tl)).map Prod.fst := by
    rcases foldl_max_mem (((dokScores reSearch tl).filter
        (fun kv => kv.2 == dokMaxScore reSearch tl)).map Prod.fst) 0 with h | h
    · exfalso
      have : dokLevel reSearch tl = 0 := h
      omega
    · exact h
  obtain ⟨kv2, hkv2f, hkv2fst⟩ := List.mem_map.mp hmem
  have hkv2s := List.mem_filter.mp hkv2f
  have hkv2max : kv2.2 = dokMaxScore reSearch tl := by
    have := hkv2s.2
    simpa using this
  have hkv2info := dokScores_mem hkv2s.1
  refine ⟨?_, ?_, ?_⟩
  · rw [← hkv2fst]; exact hkv2info.1
  · rw [← hkv2fst, ← hkv2info.2, hkv2max]
  · intro k hk hkeq
    have hkmem : (k, matchCount reSearch tl (patternsFor k)) ∈ dokScores reSearch tl := by
      rw [dokScores_eq]
      fin_cases hk <;> simp
    have hkfilter : (k, matchCount reSearch tl (patternsFor k)) ∈
        (dokScores reSearch tl).filter (fun kv => kv.2 == dokMaxScore reSearch tl) :=
      List.mem_filter.mpr ⟨hkmem, by simp [hkeq]⟩
    exact foldl_max_le_of_mem (List.mem_map_of_mem Prod.fst hkfilter) 0

theorem classify_dok_run (reSearch : String → String → Option String) (t : String)
    (hne : t.isEmpty = false) (hmatch : 0 < dokTotal reSearch t.toLower) :
    classify_dok reSearch (some t) =
      (dokLevel reSearch t.toLower,
       min ((dokMaxScore reSearch t.toLower : ℚ) / (dokTotal reSearch t.toLower : ℚ)) 1,
       (dokMatched reSearch t.toLower).take 5) := by
  have h0 : (dokTotal reSearch t.toLower = 0) = False := by
    simp
    omega
  simp [classify_dok, hne, h0]

/-- C1: when at least one trigger pattern matches the (lower-cased) text, the
returned tier attains the maximum per-tier pattern-match count, ties are
broken toward the numerically highest tier, and the confidence is the winning
tier's match count divided by the total match count over all four tiers,
capped at 1. -/
theorem classify_dok_winning_tier (reSearch : String → String → Option String)
    (t : String) (hne : t.isEmpty = false)
    (hmatch : 0 < dokTotal reSearch t.toLower) :
    (classify_dok reSearch (some t)).1 ∈ ([1, 2, 3, 4] : List ℕ)
    ∧ (∀ k ∈ ([1, 2, 3, 4] : List ℕ),
        matchCount reSearch t.toLower (patternsFor k)
          ≤ matchCount reSearch t.toLower (patternsFor (classify_dok reSearch (some t)).1))
    ∧ (∀ k ∈ ([1, 2, 3, 4] : List ℕ),
        matchCount reSearch t.toLower (patternsFor k)
            = matchCount reSearch t.toLower (patternsFor (classify_dok reSearch (some t)).1)
          → k ≤ (classify_dok reSearch (some t)).1)
    ∧ (classify_dok reSearch (some t)).2.1
        = min ((matchCount reSearch t.toLower (patternsFor (classify_dok reSearch (some t)).1) : ℚ)
            / ((([1, 2, 3, 4] : List ℕ).map
                (fun k => matchCount reSearch t.toLower (patternsFor k))).sum : ℚ)) 1 := by
  obtain ⟨hmem, hmax, htie⟩ := dokLevel_spec reSearch t.toLower hmatch
  have hrun := classify_dok_run reSearch t hne hmatch
  have h1 : (classify_dok reSearch (some t)).1 = dokLevel reSearch t.toLower := by
    rw [hrun]
  have hsum : (([1, 2, 3, 4] : List ℕ).map
      (fun k => matchCount reSearch t.toLower (patternsFor k))).sum
        = dokTotal reSearch t.toLower := by
    rw [dokTotal_eq]
    simp [List.sum_cons]
    try omega
  refine ⟨?_, ?_, ?_, ?_⟩
  · rw [h1]; exact hmem
  · intro k hk
    rw [h1, hmax]
    have hkmem : matchCount reSearch t.toLower (patternsFor k)
        ∈ ((dokScores reSearch t.toLower).map Prod.snd) := by
      rw [dokScores_eq]
      fin_cases hk <;> simp
    exact foldl_max_le_of_mem hkmem 0
  · intro k hk hkeq
    rw [h1] at hkeq ⊢
    exact htie k hk (by rw [hkeq, hmax])
  · rw [h1, hmax, hsum, hrun]

/-- A trivially refuting match function: no pattern ever matches. -/
def reSearchNone : String → String → Option String := fun _ _ => none

/-- A match function under which exactly the pattern `\bdesign\b` matches. -/
def reSearchDesign : String → String → Option String :=
  fun p _ => if p = "\\bdesign\\b" then some "design" else none

theorem classify_dok_winning_tier_witness :
    ("xy" : String).isEmpty = false
    ∧ 0 < dokTotal reSearchDesign ("xy" : String).toLower
    ∧ ((classify_dok reSearchDesign (some "xy")).1 ∈ ([1, 2, 3, 4] : List ℕ)
      ∧ (∀ k ∈ ([1, 2, 3, 4] : List ℕ),
          matchCount reSearchDesign ("xy" : String).toLower (patternsFor k)
            ≤ matchCount reSearchDesign ("xy" : String).toLower
                (patternsFor (classify_dok reSearchDesign (some "xy")).1))
      ∧ (∀ k ∈ ([1, 2, 3, 4] : List ℕ),
          matchCount reSearchDesign ("xy" : String).toLower (patternsFor k)
              = matchCount reSearchDesign ("xy" : String).toLower
                  (patternsFor (classify_dok reSearchDesign (some "xy")).1)
            → k ≤ (classify_dok reSearchDesign (some "xy")).1)
      ∧ (classify_dok reSearchDesign (some "xy")).2.1
          = min ((matchCount reSearchDesign ("xy" : String).toLower
                (patternsFor (classify_dok reSearchDesign (some "xy")).1) : ℚ)
              / ((([1, 2, 3, 4] : List ℕ).map
                  (fun k => matchCount reSearchDesign ("xy" : String).toLower
                    (patternsFor k))).sum : ℚ)) 1) :=
  ⟨by decide, by decide, classify_dok_winning_tier reSearchDesign "xy" (by decide) (by decide)⟩

/-- C2: an absent text, the empty text, and any text in which no trigger
pattern of any tier matches all classify to tier 2 with confidence 0.3 and
empty evidence. -/
theorem classify_dok_default_tier2 (reSearch : String → String → Option String) :
    classify_dok reSearch none = (2, 3/10, [])
    ∧ classify_dok reSearch (some "") = (2, 3/10, [])
    ∧ ∀ t : String,
        (∀ lp ∈ DOK_PATTERNS, ∀ p ∈ lp.2, reSearch p t.toLower = none)
          → classify_dok reSearch (some t) = (2, 3/10, []) := by
  refine ⟨rfl, rfl, ?_⟩
  intro t hnone
  have htot : dokTotal reSearch t.toLower = 0 := by
    unfold dokTotal dokScores
    rw [List.map_map]
    apply List.sum_eq_zero
    intro v hv
    obtain ⟨lp, hlp, hval⟩ := List.mem_map.mp hv
    have : matchCount reSearch t.toLower lp.2 = 0 := by
      unfold matchCount
      rw [List.countP_eq_zero]
      intro p hp
      simp [hnone lp hlp p hp]
    simpa [this] using hval.symm
  unfold classify_dok
  by_cases hemp : t.isEmpty <;> simp [hemp, htot]

theorem classify_dok_default_tier2_witness :
    (∀ lp ∈ DOK_PATTERNS, ∀ p ∈ lp.2, reSearchNone p ("hello" : String).toLower = none)
    ∧ classify_dok reSearchNone (some "hello") = (2, 3/10, []) :=
  ⟨fun _ _ _ _ => rfl,
   (classify_dok_default_tier2 reSearchNone).2.2 "hello" (fun _ _ _ _ => rfl)⟩

/-- `STAGE_THRESHOLDS` of the source: ordered `(dok_threshold,
domain_threshold, stage)` rules. -/
def STAGE_THRESHOLDS : List (ℚ × ℕ × ℕ) :=
  [(3.5, 5, 7), (3.2, 4, 6), (2.8, 3, 6), (2.5, 2, 5), (2.0, 1, 5), (0.0, 0, 5)]

/-- The `for` loop of `estimate_stage`: return the stage of the first rule
whose both thresholds are met, and 5 when no rule fires. -/
def firstStage : List (ℚ × ℕ × ℕ) → ℚ → ℕ → ℕ
  | [], _, _ => 5
  | (dok_threshold, domain_threshold, stage) :: rest, avg_dok, domain_count =>
    if dok_threshold ≤ avg_dok ∧ domain_threshold ≤ domain_count then stage
    else firstStage rest avg_dok domain_count

/-- `RPWhyBaseline.estimate_stage`. -/
def estimate_stage (avg_dok : ℚ) (domain_count : ℕ) : ℕ :=
  firstStage STAGE_THRESHOLDS avg_dok domain_count

/-- The rule list in the order and with the thresholds that the claim states
(its fifth rule has domain threshold 0 where the source table has 1, and the
claim's default is a plain 5). -/
def SPEC_STAGE_RULES : List (ℚ × ℕ × ℕ) :=
  [(3.5, 5, 7), (3.2, 4, 6), (2.8, 3, 6), (2.5, 2, 5), (2.0, 0, 5)]

/-- The stage estimator exactly as the claim describes it. -/
def estimateStageSpec (avg_dok : ℚ) (domain_count : ℕ) : ℕ :=
  firstStage SPEC_STAGE_RULES avg_dok domain_count

theorem estimate_stage_cases (a : ℚ) (d : ℕ) :
    estimate_stage a d =
      if 3.5 ≤ a ∧ 5 ≤ d then 7
      else if (3.2 ≤ a ∧ 4 ≤ d) ∨ (2.8 ≤ a ∧ 3 ≤ d) then 6
      else 5 := by
  simp only [estimate_stage, STAGE_THRESHOLDS, firstStage]
  split_ifs <;> first | rfl | tauto

/-- C4: `estimate_stage` returns the stage of the first rule of the claim's
ordered rule list whose both thresholds hold, and its result is always one of
5, 6, 7. -/
theorem estimate_stage_first_rule :
    (∀ (a : ℚ) (d : ℕ), estimate_stage a d = estimateStageSpec a d)
    ∧ ∀ (a : ℚ) (d : ℕ),
        estimate_stage a d = 5 ∨ estimate_stage a d = 6 ∨ estimate_stage a d = 7 := by
  constructor
  · intro a d
    simp only [estimate_stage, estimateStageSpec, STAGE_THRESHOLDS, SPEC_STAGE_RULES,
      firstStage]
    split_ifs <;> rfl
  · intro a d
    rw [estimate_stage_cases]
    split_ifs <;> simp

/-- C5: with the domain count fixed, the estimated stage is monotone in the
average tier score. -/
theorem estimate_stage_mono (d : ℕ) (a b : ℚ) (hab : a ≤ b) :
    estimate_stage a d ≤ estimate_stage b d := by
  by_cases h1 : 3.5 ≤ a ∧ 5 ≤ d
  · have hb1 : 3.5 ≤ b ∧ 5 ≤ d := ⟨le_trans h1.1 hab, h1.2⟩
    rw [estimate_stage_cases, estimate_stage_cases, if_pos h1, if_pos hb1]
  · by_cases h2 : (3.2 ≤ a ∧ 4 ≤ d) ∨ (2.8 ≤ a ∧ 3 ≤ d)
    · have hb2 : (3.2 ≤ b ∧ 4 ≤ d) ∨ (2.8 ≤ b ∧ 3 ≤ d) := by
        rcases h2 with h | h
        · exact Or.inl ⟨le_trans h.1 hab, h.2⟩
        · exact Or.inr ⟨le_trans h.1 hab, h.2⟩
      rw [estimate_stage_cases, estimate_stage_cases, if_neg h1, if_pos h2]
      split_ifs <;> omega
    · rw [estimate_stage_cases a d, if_neg h1, if_neg h2, estimate_stage_cases]
      split_ifs <;> omega

theorem estimate_stage_mono_witness :
    (2 : ℚ) ≤ 3 ∧ estimate_stage 2 3 ≤ estimate_stage 3 3 :=
  ⟨by norm_num, estimate_stage_mono 3 2 3 (by norm_num)⟩

/-- One weekly rollup (`{'week': ..., 'avg_dok': ..., 'prompt_count': ...}`). -/
structure WeeklyEntry where
  week : String
  avg_dok : ℚ
  prompt_count : ℕ
deriving DecidableEq

/-- `RPWhyBaseline.calculate_trajectory`: compare the first half of the weekly
scores to the second half. -/
def calculate_trajectory (weekly_scores : List WeeklyEntry) : String :=
  if weekly_scores.length < 2 then "insufficient_data"
  else
    let mid := weekly_scores.length / 2
    let first_half := (weekly_scores.take mid).map (fun w => w.avg_dok)
    let second_half := (weekly_scores.drop mid).map (fun w => w.avg_dok)
    let first_avg := if first_half ≠ [] then first_half.sum / (first_half.length : ℚ) else 0
    let second_avg := if second_half ≠ [] then second_half.sum / (second_half.length : ℚ) else 0
    let diff := second_avg - first_avg
    if 0.2 < diff then "improving"
    else if diff < -0.2 then "declining"
    else "stable"

/-- Modelled from the claim: the trend of an ordered sequence of weekly
average-tier values, split at `⌊length/2⌋` with the extra element of an
odd-length sequence falling in the second half. -/
def trajectorySpec (values : List ℚ) : String :=
  if values.length < 2 then "insufficient_data"
  else
    let mid := values.length / 2
    let firstMean := (values.take mid).sum / ((values.take mid).length : ℚ)
    let secondMean := (values.drop mid).sum / ((values.drop mid).length : ℚ)
    if 0.2 < secondMean - firstMean then "improving"
    else if secondMean - firstMean < -0.2 then "declining"
    else "stable"

/-- A weekly rollup carrying only an average-tier value. -/
def wkEntry (q : ℚ) : WeeklyEntry := ⟨"", q, 0⟩

/-- C6: `calculate_trajectory` computes exactly the claim's split-and-compare
trend of the weekly average-tier sequence, and the claim's four concrete
examples behave as stated. -/
theorem calculate_trajectory_spec :
    (∀ ws : List WeeklyEntry,
      calculate_trajectory ws = trajectorySpec (ws.map (fun w => w.avg_dok)))
    ∧ calculate_trajectory
        [wkEntry 1, wkEntry 1, wkEntry 1, wkEntry 4, wkEntry 4, wkEntry 4] = "improving"
    ∧ calculate_trajectory
        [wkEntry 4, wkEntry 4, wkEntry 4, wkEntry 1, wkEntry 1, wkEntry 1] = "declining"
    ∧ calculate_trajectory [wkEntry 2, wkEntry 2, wkEntry 2, wkEntry 2] = "stable"
    ∧ calculate_trajectory [wkEntry 1] = "insufficient_data" := by
  refine ⟨?_, ?_, ?_, ?_, ?_⟩
  · intro ws
    by_cases h : ws.length < 2
    · simp [calculate_trajectory, trajectorySpec, h]
    · have htake : ¬ (List.take (ws.length / 2) (ws.map fun w => w.avg_dok)) = [] := by
        have hlen : (List.take (ws.length / 2) (ws.map fun w => w.avg_dok)).length ≠ 0 := by
          simp only [List.length_take, List.length_map]
          omega
        intro hnil
        rw [hnil] at hlen
        exact hlen rfl
      have hdrop : ¬ (List.drop (ws.length / 2) (ws.map fun w => w.avg_dok)) = [] := by
        have hlen : (List.drop (ws.length / 2) (ws.map fun w => w.avg_dok)).length ≠ 0 := by
          simp only [List.length_drop, List.length_map]
          omega
        intro hnil
        rw [hnil] at hlen
        exact hlen rfl
      simp only [calculate_trajectory, trajectorySpec, List.length_map, List.map_take,
        List.map_drop, ite_not]
      rw [if_neg h, if_neg h, if_neg htake, if_neg hdrop]
  · simp [calculate_trajectory, wkEntry]
    norm_num
  · simp [calculate_trajectory, wkEntry]
    norm_num
  · simp [calculate_trajectory, wkEntry]
    norm_num
  · simp [calculate_trajectory]

/-- The `dok_counts` tally over the classified tiers, in tier order. -/
def dok_counts (tiers : List ℕ) : List (ℕ × ℕ) :=
  [1, 2, 3, 4].map (fun k => (k, tiers.count k))

/-- `total_prompts = sum(dok_counts.values())`. -/
def total_prompts (tiers : List ℕ) : ℕ := ((dok_counts tiers).map Prod.snd).sum

/-- `dok_distribution`: per-tier percentage `round(count / total * 100, 1)`
when the total is positive, else 0. -/
def dok_distribution (tiers : List ℕ) : List (ℕ × ℚ) :=
  (dok_counts tiers).map (fun kv =>
    (kv.1, if 0 < total_prompts tiers
      then pyRound ((kv.2 : ℚ) / (total_prompts tiers : ℚ) * 100) 1 else 0))

theorem rndInt_half_even {x : ℚ} (h : x - ⌊x⌋ = 1/2) (he : Even ⌊x⌋) :
    rndInt x = ⌊x⌋ := by
  unfold rndInt
  rw [h]
  norm_num [he]

/-- The 16-prompt tier multiset refuting the ±0.1 bound: one prompt of each
of tiers 1, 2, 3 and thirteen prompts of tier 4. -/
def dokTiers16 : List ℕ := [1, 2, 3] ++ List.replicate 13 4

theorem pyRound_tenth_625 : pyRound ((1 : ℚ) / 16 * 100) 1 = 31/5 := by
  have hfl : ⌊((1 : ℚ) / 16 * 100 * 10 ^ 1)⌋ = 62 := by norm_num
  have h62 : rndInt ((1 : ℚ) / 16 * 100 * 10 ^ 1) = 62 := by
    rw [rndInt_half_even (by rw [hfl]; norm_num) (by rw [hfl]; decide), hfl]
  unfold pyRound
  rw [h62]
  norm_num

theorem pyRound_tenth_8125 : pyRound ((13 : ℚ) / 16 * 100) 1 = 406/5 := by
  have hfl : ⌊((13 : ℚ) / 16 * 100 * 10 ^ 1)⌋ = 812 := by norm_num
  have h812 : rndInt ((13 : ℚ) / 16 * 100 * 10 ^ 1) = 812 := by
    rw [rndInt_half_even (by rw [hfl]; norm_num) (by rw [hfl]; decide), hfl]
  unfold pyRound
  rw [h812]
  norm_num

/-- C3 counterexample: for the 16-prompt multiset `dokTiers16` the four
percentages are 6.2, 6.2, 6.2 and 81.2 and sum to 99.8, which is not within
±0.1 of 100. -/
theorem dok_distribution_sum_counterexample :
    0 < total_prompts dokTiers16
    ∧ ((dok_distribution dokTiers16).map Prod.snd).sum = 499/5
    ∧ ¬ |((dok_distribution dokTiers16).map Prod.snd).sum - 100| ≤ 1/10 := by
  have hc : dok_counts dokTiers16 = [(1, 1), (2, 1), (3, 1), (4, 13)] := by decide
  have ht : total_prompts dokTiers16 = 16 := by decide
  have hsum : ((dok_distribution dokTiers16).map Prod.snd).sum = 499/5 := by
    unfold dok_distribution
    rw [hc, ht]
    have h16 : (0 : ℕ) < 16 := by norm_num
    simp only [List.map_cons, List.map_nil, if_pos h16, List.sum_cons, List.sum_nil]
    push_cast
    have e1 : ((1 : ℚ)) / 16 * 100 = (1 : ℚ) / 16 * 100 := rfl
    rw [show ((13 : ℚ)) / 16 * 100 = (13 : ℚ) / 16 * 100 from rfl]
    rw [pyRound_tenth_625, pyRound_tenth_8125]
    norm_num
  refine ⟨by rw [ht]; norm_num, hsum, ?_⟩
  rw [hsum]
  rw [abs_le]
  norm_num

/-- C3 (amended): for every non-empty multiset of classified prompts the four
tier percentages, each rounded to one decimal, sum to 100 within ±0.2 (four
roundings of at most 0.05 each; ±0.1 is refuted by
`dok_distribution_sum_counterexample`). -/
theorem dok_distribution_sum_within (tiers : List ℕ)
    (h : 0 < total_prompts tiers) :
    |((dok_distribution tiers).map Prod.snd).sum - 100| ≤ 1/5 := by
  have hT : ((total_prompts tiers : ℚ)) ≠ 0 := by
    have : (0 : ℚ) < (total_prompts tiers : ℚ) := by exact_mod_cast h
    exact this.ne'
  set T : ℚ := (total_prompts tiers : ℚ) with hTdef
  set r1 : ℚ := (tiers.count 1 : ℚ) / T * 100 with hr1
  set r2 : ℚ := (tiers.count 2 : ℚ) / T * 100 with hr2
  set r3 : ℚ := (tiers.count 3 : ℚ) / T * 100 with hr3
  set r4 : ℚ := (tiers.count 4 : ℚ) / T * 100 with hr4
  have hsumc : (tiers.count 1 : ℚ) + (tiers.count 2 : ℚ)
      + (tiers.count 3 : ℚ) + (tiers.count 4 : ℚ) = T := by
    rw [hTdef]
    unfold total_prompts dok_counts
    push_cast
    simp [List.sum_cons]
    ring
  have hsumr : r1 + r2 + r3 + r4 = 100 := by
    rw [hr1, hr2, hr3, hr4]
    field_simp
    linarith [hsumc]
  have hmap : (dok_distribution tiers).map Prod.snd =
      [pyRound r1 1, pyRound r2 1, pyRound r3 1, pyRound r4 1] := by
    unfold dok_distribution dok_counts
    simp [if_pos h, hr1, hr2, hr3, hr4]
  rw [hmap]
  simp only [List.sum_cons, List.sum_nil, add_zero]
  set p1 : ℚ := pyRound r1 1 with hp1
  set p2 : ℚ := pyRound r2 1 with hp2
  set p3 : ℚ := pyRound r3 1 with hp3
  set p4 : ℚ := pyRound r4 1 with hp4
  have hb1 : |p1 - r1| ≤ 1/20 := by
    rw [hp1]
    have := abs_pyRound_sub_le r1 1
    norm_num at this
    exact this
  have hb2 : |p2 - r2| ≤ 1/20 := by
    rw [hp2]
    have := abs_pyRound_sub_le r2 1
    norm_num at this
    exact this
  have hb3 : |p3 - r3| ≤ 1/20 := by
    rw [hp3]
    have := abs_pyRound_sub_le r3 1
    norm_num at this
    exact this
  have hb4 : |p4 - r4| ≤ 1/20 := by
    rw [hp4]
    have := abs_pyRound_sub_le r4 1
    norm_num at this
    exact this
  have hrw : p1 + (p2 + (p3 + p4)) - 100
      = (p1 - r1) + ((p2 - r2) + ((p3 - r3) + (p4 - r4))) := by
    rw [← hsumr]
    ring
  rw [hrw]
  calc |(p1 - r1) + ((p2 - r2) + ((p3 - r3) + (p4 - r4)))|
      ≤ |p1 - r1| + |(p2 - r2) + ((p3 - r3) + (p4 - r4))| := abs_add _ _
    _ ≤ |p1 - r1| + (|p2 - r2| + |(p3 - r3) + (p4 - r4)|) :=
        add_le_add_left (abs_add _ _) _
    _ ≤ |p1 - r1| + (|p2 - r2| + (|p3 - r3| + |p4 - r4|)) :=
        add_le_add_left (add_le_add_left (abs_add _ _) _) _
    _ ≤ 1/20 + (1/20 + (1/20 + 1/20)) :=
        add_le_add hb1 (add_le_add hb2 (add_le_add hb3 hb4))
    _ = 1/5 := by norm_num

theorem dok_distribution_sum_within_witness :
    0 < total_prompts [2]
    ∧ |((dok_distribution [2]).map Prod.snd).sum - 100| ≤ 1/5 :=
  ⟨by decide, dok_distribution_sum_within [2] (by decide)⟩

/-- One prompt row as produced by `get_all_user_prompts`. -/
structure PromptRecord where
  session_id : String
  session_name : String
  session_date : Option String
  working_dir : String
  text : String
  timestamp : String

/-- `weekly[week].append(dok_level)` on the association-list model of the
`defaultdict(list)`. -/
def addToWeek : List (String × List ℕ) → String → ℕ → List (String × List ℕ)
  | [], week, dok => [(week, [dok])]
  | (w, ds) :: rest, week, dok =>
    if w = week then (w, ds ++ [dok]) :: rest
    else (w, ds) :: addToWeek rest week dok

/-- One iteration of the grouping loop of `get_weekly_breakdown`: a prompt
with an absent or empty `session_date`, or a date on which the week-key
computation fails, is skipped. -/
def weekStep (weekKey : String → Option String)
    (reSearch : String → String → Option String)
    (acc : List (String × List ℕ)) (p : PromptRecord) : List (String × List ℕ) :=
  match p.session_date with
  | none => acc
  | some s =>
    if s.isEmpty then acc
    else
      match weekKey s with
      | none => acc
      | some week => addToWeek acc week (classify_dok reSearch (some p.text)).1

/-- The `weekly` dictionary of `get_weekly_breakdown`. -/
def weeklyGroups (weekKey : String → Option String)
    (reSearch : String → String → Option String)
    (prompts : List PromptRecord) : List (String × List ℕ) :=
  prompts.foldl (weekStep weekKey reSearch) []

/-- Whether a prompt contributes to the weekly rollups: its session date is
present, non-empty and the week-key computation succeeds on it. -/
def promptDateOk (weekKey : String → Option String) (p : PromptRecord) : Bool :=
  match p.session_date with
  | none => false
  | some s => if s.isEmpty then false else (weekKey s).isSome

/-- The rollup entry emitted for one week key. -/
def weekEntryOf (weekly : List (String × List ℕ)) (week : String) : WeeklyEntry :=
  let scores := (weekly.lookup week).getD []
  ⟨week,
   pyRound (if scores ≠ [] then (scores.sum : ℚ) / (scores.length : ℚ) else 0) 2,
   scores.length⟩

/-- `RPWhyBaseline.get_weekly_breakdown`: group the classified tiers by week
key, then emit one rollup per week in sorted key order. -/
def get_weekly_breakdown (weekKey : String → Option String)
    (reSearch : String → String → Option String)
    (prompts : List PromptRecord) : List WeeklyEntry :=
  (List.insertionSort (· ≤ ·) ((weeklyGroups weekKey reSearch prompts).map Prod.fst)).map
    (weekEntryOf (weeklyGroups weekKey reSearch prompts))

/-- The result of `get_data_summary`. -/
structure Summary where
  sessions : ℕ
  earliest : Option String
  latest : Option String
  days : ℤ

/-- One value of the `get_sessions_by_directory` dictionary. -/
structure DirInfo where
  count : ℕ
  tokens : ℕ
deriving DecidableEq

/-- The baseline snapshot dictionary built by `generate_baseline`. -/
structure Baseline where
  generated_at : String
  period_start : Option String
  period_end : Option String
  period_days : ℤ
  sessions_analyzed : ℕ
  prompts_classified : ℕ
  dok_distribution : List (ℕ × ℚ)
  dok_distribution_counts : List (ℕ × ℕ)
  average_dok_score : ℚ
  estimated_stage : ℕ
  domain_count : ℕ
  domains : List (String × DirInfo)
  trajectory : String
  weekly_scores : List WeeklyEntry

/-- The non-`None` results of `generate_baseline`: the structured
`{'error': 'no_data', 'message': ...}` dictionary, or a snapshot. -/
inductive BaselineResult where
  | noData (message : String)
  | ok (b : Baseline)

/-- The classified tier of every prompt, in prompt order (`dok_scores`). -/
def dokScoresOf (reSearch : String → String → Option String)
    (prompts : List PromptRecord) : List ℕ :=
  prompts.map (fun p => (classify_dok reSearch (some p.text)).1)

/-- `RPWhyBaseline.generate_baseline` with the database access abstracted:
`connectOk` is whether `connect()` succeeded, `summary` the result of
`get_data_summary`, `prompts` the rows of `get_all_user_prompts`,
`directories` the result of `get_sessions_by_directory`, and `now` the
generation timestamp.  `none` models the `None` returned on connection
failure.  The source increments `dok_counts[level]` where `classify_dok`
only returns levels 1-4; the tally `dok_counts` models those increments. -/
def avgDokOf (reSearch : String → String → Option String)
    (prompts : List PromptRecord) : ℚ :=
  if dokScoresOf reSearch prompts ≠ []
    then ((dokScoresOf reSearch prompts).sum : ℚ) / ((dokScoresOf reSearch prompts).length : ℚ)
    else 2.0

/-- The snapshot dictionary literal of `generate_baseline`. -/
def buildBaseline (summary : Summary) (prompts : List PromptRecord)
    (directories : List (String × DirInfo)) (weekKey : String → Option String)
    (reSearch : String → String → Option String) (now : String) : Baseline :=
  { generated_at := now
    period_start := summary.earliest
    period_end := summary.latest
    period_days := summary.days
    sessions_analyzed := summary.sessions
    prompts_classified := total_prompts (dokScoresOf reSearch prompts)
    dok_distribution := dok_distribution (dokScoresOf reSearch prompts)
    dok_distribution_counts := dok_counts (dokScoresOf reSearch prompts)
    average_dok_score := pyRound (avgDokOf reSearch prompts) 2
    estimated_stage := estimate_stage (avgDokOf reSearch prompts) directories.length
    domain_count := directories.length
    domains := directories.take 10
    trajectory := calculate_trajectory (get_weekly_breakdown weekKey reSearch prompts)
    weekly_scores := (get_weekly_breakdown weekKey reSearch prompts).drop
      ((get_weekly_breakdown weekKey reSearch prompts).length - 12) }

def generate_baseline (connectOk : Bool) (summary : Summary)
    (prompts : List PromptRecord) (directories : List (String × DirInfo))
    (weekKey : String → Option String) (reSearch : String → String → Option String)
    (now : String) : Option BaselineResult :=
  if !connectOk then none
  else if summary.sessions = 0 then some (.noData "No sessions found in database")
  else some (.ok (buildBaseline summary prompts directories weekKey reSearch now))

theorem classify_dok_level_mem (reSearch : String → String → Option String)
    (text : Option String) :
    (classify_dok reSearch text).1 ∈ ([1, 2, 3, 4] : List ℕ) := by
  cases text with
  | none => simp [classify_dok]
  | some t =>
    by_cases hemp : t.isEmpty
    · simp [classify_dok, hemp]
    · by_cases htot : dokTotal reSearch t.toLower = 0
      · simp [classify_dok, hemp, htot]
      · have hm : 0 < dokTotal reSearch t.toLower := by omega
        rw [classify_dok_run reSearch t (by simpa using hemp) hm]
        exact (dokLevel_spec reSearch t.toLower hm).1

theorem list_sum_le_mul (l : List ℕ) (m : ℕ) (h : ∀ x ∈ l, x ≤ m) :
    l.sum ≤ m * l.length := by
  induction l with
  | nil => simp
  | cons a t ih =>
    simp only [List.sum_cons, List.length_cons]
    rw [Nat.mul_succ]
    calc a + t.sum ≤ m + m * t.length :=
          Nat.add_le_add (h a (by simp)) (ih (fun x hx => h x (by simp [hx])))
      _ = m * t.length + m := Nat.add_comm ..

theorem list_mul_le_sum (l : List ℕ) (m : ℕ) (h : ∀ x ∈ l, m ≤ x) :
    m * l.length ≤ l.sum := by
  induction l with
  | nil => simp
  | cons a t ih =>
    simp only [List.sum_cons, List.length_cons]
    rw [Nat.mul_succ]
    calc m * t.length + m = m + m * t.length := Nat.add_comm ..
      _ ≤ a + t.sum :=
          Nat.add_le_add (h a (by simp)) (ih (fun x hx => h x (by simp [hx])))

theorem avg_in_range {l : List ℕ} (hne : l ≠ [])
    (h1 : ∀ x ∈ l, 1 ≤ x) (h4 : ∀ x ∈ l, x ≤ 4) :
    1 ≤ (l.sum : ℚ) / (l.length : ℚ) ∧ (l.sum : ℚ) / (l.length : ℚ) ≤ 4 := by
  have hlen : 0 < l.length := List.length_pos.mpr hne
  have hlenQ : (0:ℚ) < (l.length : ℚ) := by exact_mod_cast hlen
  constructor
  · rw [le_div_iff hlenQ]
    have h := list_mul_le_sum l 1 h1
    have : (1 * l.length : ℚ) ≤ (l.sum : ℚ) := by exact_mod_cast h
    linarith
  · rw [div_le_iff hlenQ]
    have h := list_sum_le_mul l 4 h4
    have : (l.sum : ℚ) ≤ (4 * l.length : ℚ) := by exact_mod_cast h
    linarith

theorem pyRound_avg_range {x : ℚ} (h1 : 1 ≤ x) (h4 : x ≤ 4) :
    1 ≤ pyRound x 2 ∧ pyRound x 2 ≤ 4 := by
  have e1 : pyRound ((1:ℤ) : ℚ) 2 = ((1:ℤ) : ℚ) := pyRound_intCast 1 2
  have e4 : pyRound ((4:ℤ) : ℚ) 2 = ((4:ℤ) : ℚ) := pyRound_intCast 4 2
  norm_num at e1 e4
  constructor
  · calc (1:ℚ) = pyRound 1 2 := e1.symm
      _ ≤ pyRound x 2 := pyRound_mono 2 h1
  · calc pyRound x 2 ≤ pyRound 4 2 := pyRound_mono 2 h4
      _ = 4 := e4

theorem estimate_stage_mem (a : ℚ) (d : ℕ) :
    estimate_stage a d = 5 ∨ estimate_stage a d = 6 ∨ estimate_stage a d = 7 := by
  rw [estimate_stage_cases]
  split_ifs <;> simp

theorem addToWeek_keys (m : List (String × List ℕ)) (week : String) (dok : ℕ) :
    (addToWeek m week dok).map Prod.fst =
      if week ∈ m.map Prod.fst then m.map Prod.fst
      else m.map Prod.fst ++ [week] := by
  induction m with
  | nil => simp [addToWeek]
  | cons hd t ih =>
    obtain ⟨w, ds⟩ := hd
    by_cases hw : w = week
    · subst hw
      simp [addToWeek]
    · have hw' : ¬ week = w := fun hh => hw hh.symm
      simp only [addToWeek, if_neg hw, List.map_cons, ih, List.mem_cons, hw', false_or]
      split_ifs <;> simp

theorem addToWeek_keys_nodup {m : List (String × List ℕ)}
    (h : (m.map Prod.fst).Nodup) (week : String) (dok : ℕ) :
    ((addToWeek m week dok).map Prod.fst).Nodup := by
  rw [addToWeek_keys]
  split_ifs with hmem
  · exact h
  · simp [List.nodup_append, h, hmem]

theorem weekStep_keys_nodup (weekKey : String → Option String)
    (reSearch : String → String → Option String)
    {acc : List (String × List ℕ)} (h : (acc.map Prod.fst).Nodup)
    (p : PromptRecord) :
    ((weekStep weekKey reSearch acc p).map Prod.fst).Nodup := by
  unfold weekStep
  cases p.session_date with
  | none => exact h
  | some s =>
    by_cases hs : s.isEmpty
    · simpa [hs] using h
    · cases hwk : weekKey s with
      | none => simpa [hs, hwk] using h
      | some week => simpa [hs, hwk] using addToWeek_keys_nodup h week _

theorem weeklyGroups_loop_nodup (weekKey : String → Option String)
    (reSearch : String → String → Option String) (prompts : List PromptRecord)
    (acc : List (String × List ℕ)) (h : (acc.map Prod.fst).Nodup) :
    ((prompts.foldl (weekStep weekKey reSearch) acc).map Prod.fst).Nodup := by
  induction prompts generalizing acc with
  | nil => simpa using h
  | cons p t ih =>
    simp only [List.foldl_cons]
    exact ih _ (weekStep_keys_nodup weekKey reSearch h p)

theorem weeklyGroups_nodup (weekKey : String → Option String)
    (reSearch : String → String → Option String) (prompts : List PromptRecord) :
    ((weeklyGroups weekKey reSearch prompts).map Prod.fst).Nodup :=
  weeklyGroups_loop_nodup weekKey reSearch prompts [] (by simp)

/-- Total number of tiers recorded in the grouping dictionary. -/
def groupSize (m : List (String × List ℕ)) : ℕ := (m.map (fun kv => kv.2.length)).sum

theorem addToWeek_size (m : List (String × List ℕ)) (week : String) (dok : ℕ) :
    groupSize (addToWeek m week dok) = groupSize m + 1 := by
  induction m with
  | nil => simp [addToWeek, groupSize]
  | cons hd t ih =>
    obtain ⟨w, ds⟩ := hd
    by_cases hw : w = week
    · subst hw
      simp [addToWeek, groupSize]
      omega
    · simp only [addToWeek, if_neg hw, groupSize, List.map_cons, List.sum_cons] at ih ⊢
      omega

theorem weekStep_size (weekKey : String → Option String)
    (reSearch : String → String → Option String)
    (acc : List (String × List ℕ)) (p : PromptRecord) :
    groupSize (weekStep weekKey reSearch acc p)
      = groupSize acc + (if promptDateOk weekKey p then 1 else 0) := by
  unfold weekStep promptDateOk
  cases p.session_date with
  | none => simp
  | some s =>
    by_cases hs : s.isEmpty
    · simp [hs]
    · cases hwk : weekKey s with
      | none => simp [hs, hwk]
      | some week => simp [hs, hwk, addToWeek_size]

theorem weeklyGroups_loop_size (weekKey : String → Option String)
    (reSearch : String → String → Option String) (prompts : List PromptRecord)
    (acc : List (String × List ℕ)) :
    groupSize (prompts.foldl (weekStep weekKey reSearch) acc)
      = groupSize acc + prompts.countP (promptDateOk weekKey) := by
  induction prompts generalizing acc with
  | nil => simp
  | cons p t ih =>
    simp only [List.foldl_cons, List.countP_cons]
    rw [ih, weekStep_size]
    by_cases hp : promptDateOk weekKey p <;> simp [hp] <;> omega

theorem weeklyGroups_size (weekKey : String → Option String)
    (reSearch : String → String → Option String) (prompts : List PromptRecord) :
    groupSize (weeklyGroups weekKey reSearch prompts)
      = prompts.countP (promptDateOk weekKey) := by
  unfold weeklyGroups
  rw [weeklyGroups_loop_size]
  simp [groupSize]

theorem sum_lookup_keys (m : List (String × List ℕ)) (h : (m.map Prod.fst).Nodup) :
    ((m.map Prod.fst).map (fun w => ((m.lookup w).getD []).length)).sum
      = groupSize m := by
  induction m with
  | nil => simp [groupSize]
  | cons hd t ih =>
    obtain ⟨w, ds⟩ := hd
    simp only [List.map_cons, List.sum_cons]
    have h' : (w :: t.map Prod.fst).Nodup := by simpa using h
    have hnd := List.nodup_cons.mp h'
    have h1 : ((((w, ds) :: t).lookup w).getD []).length = ds.length := by
      simp [List.lookup]
    have h2 : (t.map Prod.fst).map (fun w' => ((((w, ds) :: t).lookup w').getD []).length)
        = (t.map Prod.fst).map (fun w' => ((t.lookup w').getD []).length) := by
      apply List.map_congr_left
      intro w' hw'
      have hne : (w' == w) = false := by
        have hx : w' ≠ w := fun hh => hnd.1 (hh ▸ hw')
        simp [hx]
      simp [List.lookup, hne]
    rw [h1, h2, ih hnd.2]
    simp [groupSize]

theorem get_weekly_breakdown_sorted (weekKey : String → Option String)
    (reSearch : String → String → Option String) (prompts : List PromptRecord) :
    List.Pairwise (fun x y : WeeklyEntry => x.week < y.week)
      (get_weekly_breakdown weekKey reSearch prompts) := by
  unfold get_weekly_breakdown
  rw [List.pairwise_map]
  have hsorted : List.Sorted (· ≤ ·)
      (List.insertionSort (· ≤ ·) ((weeklyGroups weekKey reSearch prompts).map Prod.fst)) :=
    List.sorted_insertionSort _ _
  have hnodup : (List.insertionSort (· ≤ ·)
      ((weeklyGroups weekKey reSearch prompts).map Prod.fst)).Nodup :=
    (List.perm_insertionSort _ _).nodup_iff.mpr (weeklyGroups_nodup weekKey reSearch prompts)
  have hand := List.Pairwise.and hsorted hnodup
  exact hand.imp (fun hab => lt_of_le_of_ne hab.1 hab.2)

theorem get_weekly_breakdown_count_sum (weekKey : String → Option String)
    (reSearch : String → String → Option String) (prompts : List PromptRecord) :
    ((get_weekly_breakdown weekKey reSearch prompts).map
        (fun e => e.prompt_count)).sum
      = prompts.countP (promptDateOk weekKey) := by
  unfold get_weekly_breakdown
  rw [List.map_map]
  have hfun : ((fun e : WeeklyEntry => e.prompt_count)
      ∘ weekEntryOf (weeklyGroups weekKey reSearch prompts))
      = fun w => (((weeklyGroups weekKey reSearch prompts).lookup w).getD []).length := by
    funext w
    rfl
  rw [hfun]
  have hperm : (List.insertionSort (· ≤ ·)
      ((weeklyGroups weekKey reSearch prompts).map Prod.fst)).Perm
      ((weeklyGroups weekKey reSearch prompts).map Prod.fst) :=
    List.perm_insertionSort _ _
  rw [(hperm.map _).sum_eq]
  rw [sum_lookup_keys _ (weeklyGroups_nodup weekKey reSearch prompts)]
  exact weeklyGroups_size weekKey reSearch prompts

theorem total_prompts_eq_length {tiers : List ℕ}
    (h : ∀ x ∈ tiers, x ∈ ([1, 2, 3, 4] : List ℕ)) :
    total_prompts tiers = tiers.length := by
  induction tiers with
  | nil => simp [total_prompts, dok_counts]
  | cons a t ih =>
    have iht := ih (fun x hx => h x (by simp [hx]))
    have ha := h a (by simp)
    simp only [total_prompts, dok_counts, List.map_cons, List.map_nil, List.sum_cons,
      List.sum_nil] at iht ⊢
    simp only [List.count_cons]
    simp only [List.mem_cons, List.not_mem_nil, or_false] at ha
    rcases ha with rfl | rfl | rfl | rfl <;> simp <;> omega

/-- C10: the weekly rollup prompt counts sum to the number of prompts with a
present, non-empty and week-key-parsable session date; that sum never exceeds
the total classified into the tier distribution (which counts every prompt),
with equality exactly when every prompt has such a session date. -/
theorem weekly_rollup_counts (weekKey : String → Option String)
    (reSearch : String → String → Option String) (prompts : List PromptRecord) :
    total_prompts (dokScoresOf reSearch prompts) = prompts.length
    ∧ ((get_weekly_breakdown weekKey reSearch prompts).map
        (fun e => e.prompt_count)).sum ≤ total_prompts (dokScoresOf reSearch prompts)
    ∧ (((get_weekly_breakdown weekKey reSearch prompts).map
          (fun e => e.prompt_count)).sum = total_prompts (dokScoresOf reSearch prompts)
        ↔ ∀ p ∈ prompts, promptDateOk weekKey p = true) := by
  have htot : total_prompts (dokScoresOf reSearch prompts) = prompts.length := by
    rw [total_prompts_eq_length]
    · simp [dokScoresOf]
    · intro x hx
      obtain ⟨p, _, rfl⟩ := List.mem_map.mp hx
      exact classify_dok_level_mem reSearch (some p.text)
  have hsum := get_weekly_breakdown_count_sum weekKey reSearch prompts
  refine ⟨htot, ?_, ?_⟩
  · rw [hsum, htot]
    exact List.countP_le_length _
  · rw [hsum, htot]
    exact List.countP_eq_length

/-- C7: every snapshot of a successful `generate_baseline` run has its
average DOK score in [1, 4] (2.0 with no prompts), its estimated stage in
{5, 6, 7}, and its weekly rollups strictly ascending by week key, at most 12
of them, a suffix (the most recent entries) of the full week-sorted rollup
list with the greatest week key last. -/
theorem generate_baseline_invariants (connectOk : Bool) (summary : Summary)
    (prompts : List PromptRecord) (directories : List (String × DirInfo))
    (weekKey : String → Option String) (reSearch : String → String → Option String)
    (now : String) (b : Baseline)
    (hok : generate_baseline connectOk summary prompts directories weekKey reSearch now
      = some (.ok b)) :
    (1 ≤ b.average_dok_score ∧ b.average_dok_score ≤ 4)
    ∧ (prompts = [] → b.average_dok_score = 2)
    ∧ (b.estimated_stage = 5 ∨ b.estimated_stage = 6 ∨ b.estimated_stage = 7)
    ∧ List.Pairwise (fun x y : WeeklyEntry => x.week < y.week) b.weekly_scores
    ∧ b.weekly_scores.length ≤ 12
    ∧ b.weekly_scores <:+ get_weekly_breakdown weekKey reSearch prompts := by
  have hb : b = buildBaseline summary prompts directories weekKey reSearch now := by
    cases connectOk with
    | false => simp [generate_baseline] at hok
    | true =>
      by_cases hs : summary.sessions = 0
      · simp [generate_baseline, hs] at hok
      · unfold generate_baseline at hok
        simp only [Bool.not_true, Bool.false_eq_true, if_false, if_neg hs,
          Option.some.injEq] at hok
        exact (BaselineResult.ok.inj hok).symm
  subst hb
  have havg : 1 ≤ pyRound (avgDokOf reSearch prompts) 2
      ∧ pyRound (avgDokOf reSearch prompts) 2 ≤ 4 := by
    by_cases hps : dokScoresOf reSearch prompts = []
    · have h2 : avgDokOf reSearch prompts = 2 := by
        simp [avgDokOf, hps]
        norm_num
      rw [h2]
      have := pyRound_intCast 2 2
      norm_num at this
      rw [this]
      norm_num
    · have hbounds : ∀ x ∈ dokScoresOf reSearch prompts, 1 ≤ x ∧ x ≤ 4 := by
        intro x hx
        obtain ⟨p, _, rfl⟩ := List.mem_map.mp hx
        have := classify_dok_level_mem reSearch (some p.text)
        simp only [List.mem_cons, List.not_mem_nil, or_false] at this
        omega
      have havg0 := avg_in_range hps (fun x hx => (hbounds x hx).1)
        (fun x hx => (hbounds x hx).2)
      have heq : avgDokOf reSearch prompts
          = ((dokScoresOf reSearch prompts).sum : ℚ)
            / ((dokScoresOf reSearch prompts).length : ℚ) := by
        simp [avgDokOf, hps]
      rw [heq]
      exact pyRound_avg_range havg0.1 havg0.2
  refine ⟨?_, ?_, ?_, ?_, ?_, ?_⟩
  · exact havg
  · intro hpe
    have hps : dokScoresOf reSearch prompts = [] := by simp [dokScoresOf, hpe]
    show pyRound (avgDokOf reSearch prompts) 2 = 2
    have h2 : avgDokOf reSearch prompts = 2 := by
      simp [avgDokOf, hps]
      norm_num
    rw [h2]
    have := pyRound_intCast 2 2
    norm_num at this
    rw [this]
  · exact estimate_stage_mem (avgDokOf reSearch prompts) directories.length
  · exact List.Pairwise.sublist (List.drop_sublist _ _)
      (get_weekly_breakdown_sorted weekKey reSearch prompts)
  · show ((get_weekly_breakdown weekKey reSearch prompts).drop _).length ≤ 12
    rw [List.length_drop]
    omega
  · exact List.drop_suffix _ _

/-- A one-session summary used as concrete input. -/
def exSummary : Summary := ⟨1, some "2024-01-01T00:00:00Z", some "2024-01-01T00:00:00Z", 0⟩

/-- A concrete prompt row. -/
def exPrompt : PromptRecord :=
  ⟨"s1", "session", some "2024-01-01T00:00:00Z", "/w", "xy", "t"⟩

/-- A concrete directory summary. -/
def exDirs : List (String × DirInfo) := [("/w", ⟨1, 10⟩)]

/-- A concrete week-key function. -/
def exWeekKey : String → Option String := fun _ => some "2024-W01"

/-- Fallback snapshot for the extraction below. -/
def exBaselineFallback : Baseline :=
  ⟨"", none, none, 0, 0, 0, [], [], 0, 0, 0, [], "", []⟩

/-- The snapshot produced by the concrete successful run. -/
def exBaseline : Baseline :=
  match generate_baseline true exSummary [exPrompt] exDirs exWeekKey reSearchDesign "now" with
  | some (.ok b) => b
  | _ => exBaselineFallback

theorem generate_baseline_invariants_witness :
    generate_baseline true exSummary [exPrompt] exDirs exWeekKey reSearchDesign "now"
      = some (.ok exBaseline)
    ∧ ((1 ≤ exBaseline.average_dok_score ∧ exBaseline.average_dok_score ≤ 4)
      ∧ ([exPrompt] = ([] : List PromptRecord) → exBaseline.average_dok_score = 2)
      ∧ (exBaseline.estimated_stage = 5 ∨ exBaseline.estimated_stage = 6
          ∨ exBaseline.estimated_stage = 7)
      ∧ List.Pairwise (fun x y : WeeklyEntry => x.week < y.week) exBaseline.weekly_scores
      ∧ exBaseline.weekly_scores.length ≤ 12
      ∧ exBaseline.weekly_scores <:+ get_weekly_breakdown exWeekKey reSearchDesign [exPrompt]) :=
  ⟨rfl, generate_baseline_invariants true exSummary [exPrompt] exDirs exWeekKey
    reSearchDesign "now" exBaseline rfl⟩

mutual
/-- JSON documents as `json.dump` serialises the snapshot dictionary: floats
appear as decimal literals, so numbers are split into integers (`int`) and
decimals (`dec m e`, denoting `m / 10^(e+1)`, printed with `e+1` fractional
digits). -/
inductive Json where
  | null
  | bool (b : Bool)
  | int (n : ℤ)
  | dec (m : ℤ) (e : ℕ)
  | str (s : String)
  | arr (elems : JsonArr)
  | obj (mems : JsonObj)

/-- The element list of a JSON array. -/
inductive JsonArr where
  | nil
  | cons (hd : Json) (tl : JsonArr)

/-- The member list of a JSON object. -/
inductive JsonObj where
  | nil
  | cons (key : String) (val : Json) (tl : JsonObj)
end

/-- Decimal digit characters of a natural number, most significant first. -/
def natDigits (n : ℕ) : List Char :=
  if _h : n < 10 then [Nat.digitChar n]
  else natDigits (n / 10) ++ [Nat.digitChar (n % 10)]
decreasing_by exact Nat.div_lt_self (by omega) (by omega)

/-- Digits of `n` padded with leading zeros to width `k`. -/
def padDigits (k : ℕ) (n : ℕ) : List Char :=
  List.replicate (k - (natDigits n).length) '0' ++ natDigits n

/-- The escape of one string character. -/
def escChar (c : Char) : List Char :=
  if c = '"' then ['\\', '"']
  else if c = '\\' then ['\\', '\\']
  else if c = '\n' then ['\\', 'n']
  else if c = '\t' then ['\\', 't']
  else if c = '\r' then ['\\', 'r']
  else [c]

/-- A JSON string literal. -/
def printStr (s : String) : List Char :=
  '"' :: (s.data.flatMap escChar ++ ['"'])

/-- A JSON integer literal. -/
def printInt (n : ℤ) : List Char :=
  if n < 0 then '-' :: natDigits n.natAbs else natDigits n.natAbs

/-- A JSON decimal literal with `e + 1` fractional digits. -/
def printDec (m : ℤ) (e : ℕ) : List Char :=
  (if m < 0 then ['-'] else [])
    ++ natDigits (m.natAbs / 10 ^ (e + 1))
    ++ '.' :: padDigits (e + 1) (m.natAbs % 10 ^ (e + 1))

mutual
/-- Serialise a JSON document (compactly; `json.dump`'s `indent=2` only adds
inter-token whitespace, which the parser below skips). -/
def printVal : Json → List Char
  | .null => ['n', 'u', 'l', 'l']
  | .bool false => ['f', 'a', 'l', 's', 'e']
  | .bool true => ['t', 'r', 'u', 'e']
  | .int n => printInt n
  | .dec m e => printDec m e
  | .str s => printStr s
  | .arr xs => '[' :: printArrFirst xs
  | .obj kvs => '\x7b' :: printObjFirst kvs

/-- Array elements after `[`. -/
def printArrFirst : JsonArr → List Char
  | .nil => [']']
  | .cons v tl => printVal v ++ printArrRest tl

/-- Array elements after the first. -/
def printArrRest : JsonArr → List Char
  | .nil => [']']
  | .cons v tl => ',' :: (printVal v ++ printArrRest tl)

/-- Object members after `{`. -/
def printObjFirst : JsonObj → List Char
  | .nil => ['\x7d']
  | .cons k v tl => printStr k ++ ':' :: (printVal v ++ printObjRest tl)

/-- Object members after the first. -/
def printObjRest : JsonObj → List Char
  | .nil => ['\x7d']
  | .cons k v tl => ',' :: (printStr k ++ ':' :: (printVal v ++ printObjRest tl))
end

mutual
/-- Structural size dominating the parser's recursion depth. -/
def sizeJ : Json → ℕ
  | .null => 0
  | .bool _ => 0
  | .int _ => 0
  | .dec _ _ => 0
  | .str _ => 0
  | .arr xs => 1 + sizeA xs
  | .obj kvs => 1 + sizeO kvs

/-- Size of an array's element list. -/
def sizeA : JsonArr → ℕ
  | .nil => 0
  | .cons v tl => 1 + sizeJ v + sizeA tl

/-- Size of an object's member list. -/
def sizeO : JsonObj → ℕ
  | .nil => 0
  | .cons _ v tl => 1 + sizeJ v + sizeO tl
end

/-- The whitespace characters `json` skips between tokens. -/
def jsonWs (c : Char) : Bool :=
  c == ' ' || c == '\t' || c == '\n' || c == '\r'

/-- Skip leading whitespace. -/
def skipWs : List Char → List Char
  | [] => []
  | c :: cs => if jsonWs c then skipWs cs else c :: cs

/-- An ASCII decimal digit. -/
def isDig (c : Char) : Bool := 48 ≤ c.toNat && c.toNat ≤ 57

/-- The value of a digit character. -/
def digVal (c : Char) : ℕ := c.toNat - 48

/-- The number denoted by a digit run. -/
def natOfDigits (ds : List Char) : ℕ := ds.foldl (fun a c => 10 * a + digVal c) 0

/-- Resolve one escape character. -/
def unescChar (c : Char) : Option Char :=
  if c = '"' then some '"'
  else if c = '\\' then some '\\'
  else if c = 'n' then some '\n'
  else if c = 't' then some '\t'
  else if c = 'r' then some '\r'
  else if c = '/' then some '/'
  else none

/-- Parse a string body up to the closing quote. -/
def parseStrChars : List Char → Option (List Char × List Char)
  | [] => none
  | c :: rest =>
    if c = '"' then some ([], rest)
    else if c = '\\' then
      match rest with
      | [] => none
      | e :: rest2 =>
        match unescChar e with
        | none => none
        | some c2 =>
          match parseStrChars rest2 with
          | none => none
          | some (cs, r) => some (c2 :: cs, r)
    else
      match parseStrChars rest with
      | none => none
      | some (cs, r) => some (c :: cs, r)

/-- Parse a number (integer or decimal literal). -/
def parseNum : List Char → Option (Json × List Char)
  | [] => none
  | c :: s0 =>
    let s1 := if c = '-' then s0 else c :: s0
    let ds := s1.takeWhile isDig
    let s2 := s1.dropWhile isDig
    if ds = [] then none
    else if s2.head? = some '.' then
      let fs := s2.tail.takeWhile isDig
      let s4 := s2.tail.dropWhile isDig
      if fs = [] then none
      else
        let mNat := natOfDigits ds * 10 ^ fs.length + natOfDigits fs
        some (.dec (if c = '-' then -(mNat : ℤ) else (mNat : ℤ)) (fs.length - 1), s4)
    else
      some (.int (if c = '-' then -(natOfDigits ds : ℤ) else (natOfDigits ds : ℤ)), s2)

mutual
/-- Parse one JSON value (fuelled recursion; the fuel only has to exceed the
nesting size of the value). -/
def parseVal : ℕ → List Char → Option (Json × List Char)
  | 0, _ => none
  | fuel + 1, s =>
    match skipWs s with
    | [] => none
    | c :: rest =>
      if c = 'n' then
        match rest with
        | 'u' :: 'l' :: 'l' :: r => some (.null, r)
        | _ => none
      else if c = 't' then
        match rest with
        | 'r' :: 'u' :: 'e' :: r => some (.bool true, r)
        | _ => none
      else if c = 'f' then
        match rest with
        | 'a' :: 'l' :: 's' :: 'e' :: r => some (.bool false, r)
        | _ => none
      else if c = '"' then
        match parseStrChars rest with
        | none => none
        | some (cs, r) => some (.str ⟨cs⟩, r)
      else if c = '[' then parseArr fuel rest
      else if c = '\x7b' then parseObj fuel rest
      else parseNum (c :: rest)

/-- Parse the remainder of an array after `[`. -/
def parseArr : ℕ → List Char → Option (Json × List Char)
  | 0, _ => none
  | fuel + 1, s =>
    match skipWs s with
    | [] => none
    | c :: rest =>
      if c = ']' then some (.arr .nil, rest)
      else
        match parseVal fuel (c :: rest) with
        | none => none
        | some (v, r) =>
          match parseArrRest fuel r with
          | none => none
          | some (tl, r2) => some (.arr (.cons v tl), r2)

/-- Parse `, value`* `]`. -/
def parseArrRest : ℕ → List Char → Option (JsonArr × List Char)
  | 0, _ => none
  | fuel + 1, s =>
    match skipWs s with
    | [] => none
    | c :: rest =>
      if c = ']' then some (.nil, rest)
      else if c = ',' then
        match parseVal fuel rest with
        | none => none
        | some (v, r) =>
          match parseArrRest fuel r with
          | none => none
          | some (tl, r2) => some (.cons v tl, r2)
      else none

/-- Parse the remainder of an object after `{`. -/
def parseObj : ℕ → List Char → Option (Json × List Char)
  | 0, _ => none
  | fuel + 1, s =>
    match skipWs s with
    | [] => none
    | c :: rest =>
      if c = '\x7d' then some (.obj .nil, rest)
      else if c = '"' then
        match parseStrChars rest with
        | none => none
        | some (cs, r) =>
          match skipWs r with
          | [] => none
          | c2 :: r2 =>
            if c2 = ':' then
              match parseVal fuel r2 with
              | none => none
              | some (v, r3) =>
                match parseObjRest fuel r3 with
                | none => none
                | some (tl, r4) => some (.obj (.cons ⟨cs⟩ v tl), r4)
            else none
      else none

/-- Parse `, "key": value`* `}`. -/
def parseObjRest : ℕ → List Char → Option (JsonObj × List Char)
  | 0, _ => none
  | fuel + 1, s =>
    match skipWs s with
    | [] => none
    | c :: rest =>
      if c = '\x7d' then some (.nil, rest)
      else if c = ',' then
        match skipWs rest with
        | [] => none
        | c2 :: r2 =>
          if c2 = '"' then
            match parseStrChars r2 with
            | none => none
            | some (cs, r) =>
              match skipWs r with
              | [] => none
              | c3 :: r3 =>
                if c3 = ':' then
                  match parseVal fuel r3 with
                  | none => none
                  | some (v, r4) =>
                    match parseObjRest fuel r4 with
                    | none => none
                    | some (tl, r5) => some (.cons ⟨cs⟩ v tl, r5)
                else none
          else none
      else none
end

/-- `json.dump` of a document. -/
def dumps (v : Json) : String := ⟨printVal v⟩

/-- `json.load` of a file's content. -/
def loads (s : String) : Option Json :=
  match parseVal (s.data.length + 1) s.data with
  | some (v, rest) => if skipWs rest = [] then some v else none
  | none => none

theorem natOfDigits_append_digit (xs : List Char) (c : Char) :
    natOfDigits (xs ++ [c]) = 10 * natOfDigits xs + digVal c := by
  simp [natOfDigits, List.foldl_append]

theorem digitChar_isDig {d : ℕ} (h : d < 10) : isDig (Nat.digitChar d) = true := by
  interval_cases d <;> decide

theorem digVal_digitChar {d : ℕ} (h : d < 10) : digVal (Nat.digitChar d) = d := by
  interval_cases d <;> decide

theorem natDigits_ne_nil (n : ℕ) : natDigits n ≠ [] := by
  unfold natDigits
  split_ifs <;> simp

theorem natDigits_all_dig (n : ℕ) : ∀ c ∈ natDigits n, isDig c = true := by
  induction n using natDigits.induct with
  | case1 x hx =>
    intro c hc
    unfold natDigits at hc
    rw [dif_pos hx] at hc
    simp at hc
    subst hc
    exact digitChar_isDig hx
  | case2 x hx ih =>
    intro c hc
    unfold natDigits at hc
    rw [dif_neg hx] at hc
    rcases List.mem_append.mp hc with h | h
    · exact ih c h
    · simp at h
      subst h
      exact digitChar_isDig (Nat.mod_lt x (by omega))

theorem natOfDigits_natDigits (n : ℕ) : natOfDigits (natDigits n) = n := by
  induction n using natDigits.induct with
  | case1 x hx =>
    unfold natDigits
    rw [dif_pos hx]
    simp [natOfDigits, digVal_digitChar hx]
  | case2 x hx ih =>
    unfold natDigits
    rw [dif_neg hx, natOfDigits_append_digit, ih,
      digVal_digitChar (Nat.mod_lt x (by omega))]
    omega

theorem natDigits_length_le {n k : ℕ} (hk : 1 ≤ k) (h : n < 10 ^ k) :
    (natDigits n).length ≤ k := by
  induction n using natDigits.induct generalizing k with
  | case1 x hx =>
    unfold natDigits
    rw [dif_pos hx]
    simpa using hk
  | case2 x hx ih =>
    unfold natDigits
    rw [dif_neg hx]
    simp only [List.length_append, List.length_cons, List.length_nil]
    have hk2 : 2 ≤ k := by
      by_contra hcon
      have hk1 : k = 1 := by omega
      subst hk1
      norm_num at h
      omega
    have hpow : 10 ^ k = 10 ^ (k - 1) * 10 := by
      rw [← pow_succ]
      congr 1
      omega
    have hdiv : x / 10 < 10 ^ (k - 1) := by
      rw [Nat.div_lt_iff_lt_mul (by norm_num)]
      omega
    have := ih (by omega) hdiv
    omega

theorem padDigits_all_dig (k n : ℕ) : ∀ c ∈ padDigits k n, isDig c = true := by
  intro c hc
  rcases List.mem_append.mp hc with h | h
  · rw [List.eq_of_mem_replicate h]
    decide
  · exact natDigits_all_dig n c h

theorem padDigits_length {k n : ℕ} (hk : 1 ≤ k) (h : n < 10 ^ k) :
    (padDigits k n).length = k := by
  unfold padDigits
  rw [List.length_append, List.length_replicate]
  have := natDigits_length_le hk h
  omega

theorem padDigits_ne_nil {k n : ℕ} (hk : 1 ≤ k) (h : n < 10 ^ k) :
    padDigits k n ≠ [] := by
  intro hnil
  have hlen := padDigits_length hk h
  rw [hnil] at hlen
  simp at hlen
  omega

theorem natOfDigits_replicate_zero (j : ℕ) (ds : List Char) :
    natOfDigits (List.replicate j '0' ++ ds) = natOfDigits ds := by
  induction j with
  | zero => simp
  | succ j ih =>
    rw [List.replicate_succ]
    simp only [List.cons_append, natOfDigits, List.foldl_cons] at ih ⊢
    have h0 : 10 * 0 + digVal '0' = 0 := by decide
    rw [h0]
    exact ih

theorem natOfDigits_padDigits (k n : ℕ) : natOfDigits (padDigits k n) = n := by
  unfold padDigits
  rw [natOfDigits_replicate_zero, natOfDigits_natDigits]

theorem takeWhile_dropWhile_append {p : Char → Bool} (ds l : List Char)
    (hds : ∀ c ∈ ds, p c = true)
    (hl : ∀ c, l.head? = some c → p c = false) :
    (ds ++ l).takeWhile p = ds ∧ (ds ++ l).dropWhile p = l := by
  induction ds with
  | nil =>
    simp only [List.nil_append]
    cases l with
    | nil => simp
    | cons c t =>
      have hc := hl c rfl
      simp [List.takeWhile, List.dropWhile, hc]
  | cons d t ih =>
    have hd := hds d (by simp)
    have iht := ih (fun c hc => hds c (by simp [hc]))
    simp only [List.cons_append, List.takeWhile_cons, List.dropWhile_cons, hd, if_true]
    simp [iht.1, iht.2]

theorem parseStrChars_round (l : List Char) (rest : List Char) :
    parseStrChars (l.flatMap escChar ++ '"' :: rest) = some (l, rest) := by
  induction l with
  | nil =>
    rw [List.flatMap_nil, List.nil_append, parseStrChars.eq_def]
    simp
  | cons c t ih =>
    simp only [List.flatMap_cons, List.append_assoc]
    by_cases h1 : c = '"'
    · subst h1
      rw [show escChar '"' = ['\\', '"'] from rfl, List.cons_append, List.cons_append,
        parseStrChars.eq_def]
      simp [unescChar, ih]
    · by_cases h2 : c = '\\'
      · subst h2
        rw [show escChar '\\' = ['\\', '\\'] from rfl, List.cons_append, List.cons_append,
          parseStrChars.eq_def]
        simp [unescChar, ih]
      · by_cases h3 : c = '\n'
        · subst h3
          rw [show escChar '\n' = ['\\', 'n'] from rfl, List.cons_append, List.cons_append,
            parseStrChars.eq_def]
          simp [unescChar, ih]
        · by_cases h4 : c = '\t'
          · subst h4
            rw [show escChar '\t' = ['\\', 't'] from rfl, List.cons_append, List.cons_append,
              parseStrChars.eq_def]
            simp [unescChar, ih]
          · by_cases h5 : c = '\r'
            · subst h5
              rw [show escChar '\r' = ['\\', 'r'] from rfl, List.cons_append, List.cons_append,
                parseStrChars.eq_def]
              simp [unescChar, ih]
            · rw [show escChar c = [c] from by simp [escChar, h1, h2, h3, h4, h5],
                List.cons_append, List.nil_append, parseStrChars.eq_def]
              simp [h1, h2, ih]

/-- A parser continuation on which a number literal ends: the next character
(when any) is no digit and no decimal point. -/
def numDelim (l : List Char) : Prop :=
  ∀ c, l.head? = some c → isDig c = false ∧ c ≠ '.'

theorem numDelim_nil : numDelim [] := fun _ h => Option.noConfusion h

theorem numDelim_cons {c : Char} (h1 : isDig c = false) (h2 : c ≠ '.')
    (l : List Char) : numDelim (c :: l) := by
  intro d hd
  have : c = d := Option.some.inj hd
  subst this
  exact ⟨h1, h2⟩

theorem isDig_facts {c : Char} (h : isDig c = true) :
    jsonWs c = false ∧ c ≠ 'n' ∧ c ≠ 't' ∧ c ≠ 'f' ∧ c ≠ '"' ∧ c ≠ '['
    ∧ c ≠ '\x7b' ∧ c ≠ ']' ∧ c ≠ ',' ∧ c ≠ '-' ∧ c ≠ ':' := by
  have hws : jsonWs c = false := by
    by_contra hw
    have hw' : jsonWs c = true := by
      cases hj : jsonWs c
      · exact absurd hj hw
      · rfl
    simp only [jsonWs, Bool.or_eq_true, beq_iff_eq] at hw'
    rcases hw' with ((rfl | rfl) | rfl) | rfl <;> exact absurd h (by decide)
  refine ⟨hws, ?_, ?_, ?_, ?_, ?_, ?_, ?_, ?_, ?_, ?_⟩ <;>
    · intro heq
      subst heq
      exact absurd h (by decide)

theorem numStart_facts {c : Char} (h : isDig c = true ∨ c = '-') :
    jsonWs c = false ∧ c ≠ 'n' ∧ c ≠ 't' ∧ c ≠ 'f' ∧ c ≠ '"' ∧ c ≠ '['
    ∧ c ≠ '\x7b' ∧ c ≠ ']' := by
  rcases h with h | rfl
  · have := isDig_facts h
    exact ⟨this.1, this.2.1, this.2.2.1, this.2.2.2.1, this.2.2.2.2.1,
      this.2.2.2.2.2.1, this.2.2.2.2.2.2.1, this.2.2.2.2.2.2.2.1⟩
  · refine ⟨by decide, by decide, by decide, by decide, by decide, by decide,
      by decide, by decide⟩

theorem parseNum_int (n : ℤ) (rest : List Char) (hrest : numDelim rest) :
    parseNum (printInt n ++ rest) = some (.int n, rest) := by
  have hsplit := takeWhile_dropWhile_append (p := isDig) (natDigits n.natAbs) rest
    (natDigits_all_dig _) (fun c hc => (hrest c hc).1)
  have hdot : ¬ rest.head? = some '.' := by
    intro hd
    exact absurd rfl (hrest '.' hd).2
  by_cases hn : n < 0
  · rw [show printInt n = '-' :: natDigits n.natAbs from by simp [printInt, hn],
      List.cons_append]
    simp only [parseNum, if_true]
    rw [hsplit.1, hsplit.2, if_neg (natDigits_ne_nil n.natAbs),
      if_neg hdot, natOfDigits_natDigits]
    have : -((n.natAbs : ℤ)) = n := by omega
    rw [this]
  · obtain ⟨c, cs, hceq⟩ := List.exists_cons_of_ne_nil (natDigits_ne_nil n.natAbs)
    have hcdig : isDig c = true := natDigits_all_dig _ c (by rw [hceq]; exact List.mem_cons_self ..)
    have hcm : ¬ c = '-' := (isDig_facts hcdig).2.2.2.2.2.2.2.2.2.1
    rw [show printInt n = natDigits n.natAbs from by simp [printInt, hn], hceq,
      List.cons_append]
    simp only [parseNum]
    rw [if_neg hcm, ← List.cons_append, ← hceq, hsplit.1, hsplit.2,
      if_neg (natDigits_ne_nil n.natAbs), if_neg hdot, if_neg hcm, natOfDigits_natDigits]
    have : ((n.natAbs : ℤ)) = n := by omega
    rw [this]

theorem parseNum_dec (m : ℤ) (e : ℕ) (rest : List Char) (hrest : numDelim rest) :
    parseNum (printDec m e ++ rest) = some (.dec m e, rest) := by
  have hpow : 0 < 10 ^ (e + 1) := by positivity
  have hr : m.natAbs % 10 ^ (e + 1) < 10 ^ (e + 1) := Nat.mod_lt _ hpow
  have hsplit1 := takeWhile_dropWhile_append (p := isDig)
    (natDigits (m.natAbs / 10 ^ (e + 1)))
    ('.' :: (padDigits (e + 1) (m.natAbs % 10 ^ (e + 1)) ++ rest))
    (natDigits_all_dig _) (fun c hc => by
      have hc' : '.' = c := Option.some.inj hc
      subst hc'
      decide)
  have hsplit2 := takeWhile_dropWhile_append (p := isDig)
    (padDigits (e + 1) (m.natAbs % 10 ^ (e + 1))) rest
    (padDigits_all_dig _ _) (fun c hc => (hrest c hc).1)
  have hfsne := padDigits_ne_nil (k := e + 1) (n := m.natAbs % 10 ^ (e + 1)) (by omega) hr
  have hfslen := padDigits_length (k := e + 1) (n := m.natAbs % 10 ^ (e + 1)) (by omega) hr
  have hdm : m.natAbs / 10 ^ (e + 1) * 10 ^ (e + 1) + m.natAbs % 10 ^ (e + 1)
      = m.natAbs := Nat.div_add_mod' _ _
  by_cases hm : m < 0
  · rw [show printDec m e = '-' :: (natDigits (m.natAbs / 10 ^ (e + 1))
        ++ '.' :: padDigits (e + 1) (m.natAbs % 10 ^ (e + 1))) from by
        simp [printDec, hm], List.cons_append, List.append_assoc]
    simp only [parseNum, List.cons_append, if_true]
    rw [hsplit1.1, hsplit1.2, if_neg (natDigits_ne_nil _),
      if_pos (by simp), List.tail_cons, hsplit2.1, hsplit2.2, if_neg hfsne,
      natOfDigits_natDigits, natOfDigits_padDigits, hfslen, hdm]
    have h1 : -((m.natAbs : ℤ)) = m := by omega
    have h2 : e + 1 - 1 = e := by omega
    rw [h1, h2]
  · obtain ⟨c, cs, hceq⟩ :=
      List.exists_cons_of_ne_nil (natDigits_ne_nil (m.natAbs / 10 ^ (e + 1)))
    have hcdig : isDig c = true :=
      natDigits_all_dig _ c (by rw [hceq]; exact List.mem_cons_self ..)
    have hcm : ¬ c = '-' := (isDig_facts hcdig).2.2.2.2.2.2.2.2.2.1
    rw [show printDec m e = natDigits (m.natAbs / 10 ^ (e + 1))
        ++ '.' :: padDigits (e + 1) (m.natAbs % 10 ^ (e + 1)) from by
        simp [printDec, hm], List.append_assoc, List.cons_append, hceq,
      List.cons_append]
    simp only [parseNum]
    rw [if_neg hcm, ← List.cons_append, ← hceq, hsplit1.1, hsplit1.2,
      if_neg (natDigits_ne_nil _), if_pos (by simp), List.tail_cons,
      hsplit2.1, hsplit2.2, if_neg hfsne, if_neg hcm, natOfDigits_natDigits,
      natOfDigits_padDigits, hfslen, hdm]
    have h1 : ((m.natAbs : ℤ)) = m := by omega
    have h2 : e + 1 - 1 = e := by omega
    rw [h1, h2]

theorem skipWs_cons {c : Char} (h : jsonWs c = false) (l : List Char) :
    skipWs (c :: l) = c :: l := by
  rw [skipWs]
  simp [h]

theorem printInt_head (n : ℤ) :
    ∃ c cs, printInt n = c :: cs ∧ (isDig c = true ∨ c = '-') := by
  by_cases hn : n < 0
  · exact ⟨'-', natDigits n.natAbs, by simp [printInt, hn], Or.inr rfl⟩
  · obtain ⟨c, cs, hceq⟩ := List.exists_cons_of_ne_nil (natDigits_ne_nil n.natAbs)
    exact ⟨c, cs, by simp [printInt, hn, hceq],
      Or.inl (natDigits_all_dig _ c (by rw [hceq]; exact List.mem_cons_self ..))⟩

theorem printDec_head (m : ℤ) (e : ℕ) :
    ∃ c cs, printDec m e = c :: cs ∧ (isDig c = true ∨ c = '-') := by
  by_cases hm : m < 0
  · exact ⟨'-', natDigits (m.natAbs / 10 ^ (e + 1))
      ++ '.' :: padDigits (e + 1) (m.natAbs % 10 ^ (e + 1)),
      by simp [printDec, hm], Or.inr rfl⟩
  · obtain ⟨c, cs, hceq⟩ :=
      List.exists_cons_of_ne_nil (natDigits_ne_nil (m.natAbs / 10 ^ (e + 1)))
    refine ⟨c, cs ++ '.' :: padDigits (e + 1) (m.natAbs % 10 ^ (e + 1)), ?_,
      Or.inl (natDigits_all_dig _ c (by rw [hceq]; exact List.mem_cons_self ..))⟩
    simp [printDec, hm, hceq]

theorem printVal_head (v : Json) :
    ∃ c cs, printVal v = c :: cs ∧ jsonWs c = false ∧ c ≠ ']' := by
  cases v with
  | null => exact ⟨'n', _, by rw [printVal], by decide, by decide⟩
  | bool b =>
    cases b with
    | false => exact ⟨'f', _, by rw [printVal], by decide, by decide⟩
    | true => exact ⟨'t', _, by rw [printVal], by decide, by decide⟩
  | int n =>
    obtain ⟨c, cs, hceq, hc⟩ := printInt_head n
    have hf := numStart_facts hc
    exact ⟨c, cs, by rw [printVal, hceq], hf.1, hf.2.2.2.2.2.2.2⟩
  | dec m e =>
    obtain ⟨c, cs, hceq, hc⟩ := printDec_head m e
    have hf := numStart_facts hc
    exact ⟨c, cs, by rw [printVal, hceq], hf.1, hf.2.2.2.2.2.2.2⟩
  | str s =>
    exact ⟨'"', _, by rw [printVal, printStr], by decide, by decide⟩
  | arr xs => exact ⟨'[', _, by rw [printVal], by decide, by decide⟩
  | obj kvs => exact ⟨'\x7b', _, by rw [printVal], by decide, by decide⟩

theorem numDelim_printArrRest (tl : JsonArr) (rest : List Char) :
    numDelim (printArrRest tl ++ rest) := by
  cases tl with
  | nil =>
    rw [printArrRest]
    exact numDelim_cons (by decide) (by decide) rest
  | cons v tl =>
    rw [printArrRest]
    exact numDelim_cons (by decide) (by decide) _

theorem numDelim_printObjRest (tl : JsonObj) (rest : List Char) :
    numDelim (printObjRest tl ++ rest) := by
  cases tl with
  | nil =>
    rw [printObjRest]
    exact numDelim_cons (by decide) (by decide) rest
  | cons k v tl =>
    rw [printObjRest]
    exact numDelim_cons (by decide) (by decide) _

theorem parseVal_num (fuel : ℕ) (c : Char) (cs : List Char)
    (h : isDig c = true ∨ c = '-') :
    parseVal (fuel + 1) (c :: cs) = parseNum (c :: cs) := by
  obtain ⟨hws, hn, ht, hf, hq, hlb, hob, _⟩ := numStart_facts h
  rw [parseVal, skipWs_cons hws]
  simp only [if_neg hn, if_neg ht, if_neg hf, if_neg hq, if_neg hlb, if_neg hob]

theorem parse_print (fuel : ℕ) :
    (∀ (v : Json) (rest : List Char), sizeJ v < fuel → numDelim rest →
      parseVal fuel (printVal v ++ rest) = some (v, rest))
    ∧ (∀ (xs : JsonArr) (rest : List Char), sizeA xs < fuel →
      parseArr fuel (printArrFirst xs ++ rest) = some (.arr xs, rest))
    ∧ (∀ (xs : JsonArr) (rest : List Char), sizeA xs < fuel →
      parseArrRest fuel (printArrRest xs ++ rest) = some (xs, rest))
    ∧ (∀ (kvs : JsonObj) (rest : List Char), sizeO kvs < fuel →
      parseObj fuel (printObjFirst kvs ++ rest) = some (.obj kvs, rest))
    ∧ (∀ (kvs : JsonObj) (rest : List Char), sizeO kvs < fuel →
      parseObjRest fuel (printObjRest kvs ++ rest) = some (kvs, rest)) := by
  induction fuel with
  | zero =>
    exact ⟨fun v rest h _ => absurd h (by omega),
      fun xs rest h => absurd h (by omega),
      fun xs rest h => absurd h (by omega),
      fun kvs rest h => absurd h (by omega),
      fun kvs rest h => absurd h (by omega)⟩
  | succ fuel ih =>
    obtain ⟨ihV, ihA, ihAR, ihO, ihOR⟩ := ih
    refine ⟨?_, ?_, ?_, ?_, ?_⟩
    · intro v rest hsize hrest
      cases v with
      | null =>
        rw [printVal, parseVal, List.cons_append, List.cons_append, List.cons_append,
          List.cons_append, List.nil_append, skipWs_cons (by decide)]
        simp only [if_pos rfl, eq_self_iff_true, if_true]
      | bool b =>
        cases b with
        | true =>
          rw [printVal, parseVal, List.cons_append, List.cons_append, List.cons_append,
            List.cons_append, List.nil_append, skipWs_cons (by decide)]
          simp only [if_neg (by decide : ¬ ('t' : Char) = 'n'), if_pos rfl, eq_self_iff_true, if_true]
        | false =>
          rw [printVal, parseVal, List.cons_append, List.cons_append, List.cons_append,
            List.cons_append, List.cons_append, List.nil_append, skipWs_cons (by decide)]
          simp only [if_neg (by decide : ¬ ('f' : Char) = 'n'),
            if_neg (by decide : ¬ ('f' : Char) = 't'), if_pos rfl, eq_self_iff_true, if_true]
      | int n =>
        obtain ⟨c, cs, hceq, hc⟩ := printInt_head n
        rw [printVal, hceq, List.cons_append, parseVal_num fuel c (cs ++ rest) hc,
          ← List.cons_append, ← hceq]
        exact parseNum_int n rest hrest
      | dec m e =>
        obtain ⟨c, cs, hceq, hc⟩ := printDec_head m e
        rw [printVal, hceq, List.cons_append, parseVal_num fuel c (cs ++ rest) hc,
          ← List.cons_append, ← hceq]
        exact parseNum_dec m e rest hrest
      | str s =>
        rw [printVal, printStr, parseVal, List.cons_append, List.append_assoc,
          List.cons_append, List.nil_append, skipWs_cons (by decide)]
        simp only [if_neg (by decide : ¬ ('"' : Char) = 'n'),
          if_neg (by decide : ¬ ('"' : Char) = 't'),
          if_neg (by decide : ¬ ('"' : Char) = 'f'), if_pos rfl, eq_self_iff_true,
          if_true, parseStrChars_round]
      | arr xs =>
        rw [printVal, parseVal, List.cons_append, skipWs_cons (by decide)]
        simp only [if_neg (by decide : ¬ ('[' : Char) = 'n'),
          if_neg (by decide : ¬ ('[' : Char) = 't'),
          if_neg (by decide : ¬ ('[' : Char) = 'f'),
          if_neg (by decide : ¬ ('[' : Char) = '"'), if_pos rfl, eq_self_iff_true, if_true]
        rw [sizeJ] at hsize
        exact ihA xs rest (by omega)
      | obj kvs =>
        rw [printVal, parseVal, List.cons_append, skipWs_cons (by decide)]
        simp only [if_neg (by decide : ¬ ('\x7b' : Char) = 'n'),
          if_neg (by decide : ¬ ('\x7b' : Char) = 't'),
          if_neg (by decide : ¬ ('\x7b' : Char) = 'f'),
          if_neg (by decide : ¬ ('\x7b' : Char) = '"'),
          if_neg (by decide : ¬ ('\x7b' : Char) = '['), if_pos rfl, eq_self_iff_true, if_true]
        rw [sizeJ] at hsize
        exact ihO kvs rest (by omega)
    · intro xs rest hsize
      cases xs with
      | nil =>
        rw [printArrFirst, parseArr, List.cons_append, List.nil_append,
          skipWs_cons (by decide)]
        simp only [if_pos rfl, eq_self_iff_true, if_true]
      | cons v tl =>
        rw [sizeA] at hsize
        obtain ⟨c, cs, hceq, hws, hrb⟩ := printVal_head v
        rw [printArrFirst, List.append_assoc, hceq, List.cons_append, parseArr,
          skipWs_cons hws]
        simp only [if_neg hrb]
        rw [← List.cons_append, ← hceq,
          ihV v (printArrRest tl ++ rest) (by omega) (numDelim_printArrRest tl rest)]
        simp only []
        rw [ihAR tl rest (by omega)]
    · intro xs rest hsize
      cases xs with
      | nil =>
        rw [printArrRest, parseArrRest, List.cons_append, List.nil_append,
          skipWs_cons (by decide)]
        simp only [if_pos rfl, eq_self_iff_true, if_true]
      | cons v tl =>
        rw [sizeA] at hsize
        rw [printArrRest, List.cons_append, List.append_assoc, parseArrRest,
          skipWs_cons (by decide)]
        simp only [if_neg (by decide : ¬ (',' : Char) = ']'), if_pos rfl, eq_self_iff_true, if_true]
        rw [ihV v (printArrRest tl ++ rest) (by omega) (numDelim_printArrRest tl rest)]
        simp only []
        rw [ihAR tl rest (by omega)]
    · intro kvs rest hsize
      cases kvs with
      | nil =>
        rw [printObjFirst, parseObj, List.cons_append, List.nil_append,
          skipWs_cons (by decide)]
        simp only [if_pos rfl, eq_self_iff_true, if_true]
      | cons k v tl =>
        rw [sizeO] at hsize
        rw [printObjFirst, List.append_assoc, List.cons_append, List.append_assoc,
          printStr, List.cons_append, parseObj, skipWs_cons (by decide)]
        simp only [if_neg (by decide : ¬ ('"' : Char) = '\x7d'), if_pos rfl, eq_self_iff_true, if_true]
        rw [List.append_assoc, List.cons_append, List.nil_append,
          parseStrChars_round]
        simp only []
        rw [skipWs_cons (by decide)]
        simp only [if_pos rfl, eq_self_iff_true, if_true]
        rw [ihV v (printObjRest tl ++ rest) (by omega) (numDelim_printObjRest tl rest)]
        simp only []
        rw [ihOR tl rest (by omega)]
    · intro kvs rest hsize
      cases kvs with
      | nil =>
        rw [printObjRest, parseObjRest, List.cons_append, List.nil_append,
          skipWs_cons (by decide)]
        simp only [if_pos rfl, eq_self_iff_true, if_true]
      | cons k v tl =>
        rw [sizeO] at hsize
        rw [printObjRest, List.cons_append, parseObjRest, skipWs_cons (by decide)]
        simp only [if_neg (by decide : ¬ (',' : Char) = '\x7d'), if_pos rfl, eq_self_iff_true, if_true]
        rw [List.append_assoc, printStr, List.cons_append, skipWs_cons (by decide)]
        simp only [if_pos rfl, eq_self_iff_true, if_true]
        rw [List.append_assoc, List.cons_append, List.nil_append, parseStrChars_round]
        simp only []
        rw [List.cons_append, skipWs_cons (by decide)]
        simp only [if_pos rfl, eq_self_iff_true, if_true]
        rw [List.append_assoc,
          ihV v (printObjRest tl ++ rest) (by omega) (numDelim_printObjRest tl rest)]
        simp only []
        rw [ihOR tl rest (by omega)]

theorem size_le_print_length (fuel : ℕ) :
    (∀ v : Json, sizeJ v ≤ fuel → sizeJ v + 1 ≤ (printVal v).length)
    ∧ (∀ xs : JsonArr, sizeA xs ≤ fuel → sizeA xs + 1 ≤ (printArrFirst xs).length)
    ∧ (∀ xs : JsonArr, sizeA xs ≤ fuel → sizeA xs + 1 ≤ (printArrRest xs).length)
    ∧ (∀ kvs : JsonObj, sizeO kvs ≤ fuel → sizeO kvs + 1 ≤ (printObjFirst kvs).length)
    ∧ (∀ kvs : JsonObj, sizeO kvs ≤ fuel → sizeO kvs + 1 ≤ (printObjRest kvs).length) := by
  induction fuel with
  | zero =>
    refine ⟨?_, ?_, ?_, ?_, ?_⟩
    · intro v h
      obtain ⟨c, cs, hceq, _⟩ := printVal_head v
      rw [hceq]
      simp only [List.length_cons]
      omega
    · intro xs h
      cases xs with
      | nil =>
        rw [printArrFirst, sizeA]
        simp
      | cons v tl =>
        rw [sizeA] at h
        omega
    · intro xs h
      cases xs with
      | nil =>
        rw [printArrRest, sizeA]
        simp
      | cons v tl =>
        rw [sizeA] at h
        omega
    · intro kvs h
      cases kvs with
      | nil =>
        rw [printObjFirst, sizeO]
        simp
      | cons k v tl =>
        rw [sizeO] at h
        omega
    · intro kvs h
      cases kvs with
      | nil =>
        rw [printObjRest, sizeO]
        simp
      | cons k v tl =>
        rw [sizeO] at h
        omega
  | succ fuel ih =>
    obtain ⟨ihV, ihA, ihAR, ihO, ihOR⟩ := ih
    refine ⟨?_, ?_, ?_, ?_, ?_⟩
    · intro v hsize
      cases v with
      | arr xs =>
        rw [sizeJ] at hsize ⊢
        rw [printVal]
        simp only [List.length_cons]
        have := ihA xs (by omega)
        omega
      | obj kvs =>
        rw [sizeJ] at hsize ⊢
        rw [printVal]
        simp only [List.length_cons]
        have := ihO kvs (by omega)
        omega
      | null =>
        obtain ⟨c, cs, hceq, _⟩ := printVal_head .null
        rw [sizeJ, hceq]
        simp
      | bool b =>
        obtain ⟨c, cs, hceq, _⟩ := printVal_head (.bool b)
        rw [sizeJ, hceq]
        simp
      | int n =>
        obtain ⟨c, cs, hceq, _⟩ := printVal_head (.int n)
        rw [sizeJ, hceq]
        simp
      | dec m e =>
        obtain ⟨c, cs, hceq, _⟩ := printVal_head (.dec m e)
        rw [sizeJ, hceq]
        simp
      | str s =>
        obtain ⟨c, cs, hceq, _⟩ := printVal_head (.str s)
        rw [sizeJ, hceq]
        simp
    · intro xs hsize
      cases xs with
      | nil =>
        rw [printArrFirst, sizeA]
        simp
      | cons v tl =>
        rw [sizeA] at hsize ⊢
        rw [printArrFirst, List.length_append]
        have h1 := ihV v (by omega)
        have h2 := ihAR tl (by omega)
        omega
    · intro xs hsize
      cases xs with
      | nil =>
        rw [printArrRest, sizeA]
        simp
      | cons v tl =>
        rw [sizeA] at hsize ⊢
        rw [printArrRest]
        simp only [List.length_cons, List.length_append]
        have h1 := ihV v (by omega)
        have h2 := ihAR tl (by omega)
        omega
    · intro kvs hsize
      cases kvs with
      | nil =>
        rw [printObjFirst, sizeO]
        simp
      | cons k v tl =>
        rw [sizeO] at hsize ⊢
        rw [printObjFirst]
        simp only [List.length_append, List.length_cons]
        have h1 := ihV v (by omega)
        have h2 := ihOR tl (by omega)
        omega
    · intro kvs hsize
      cases kvs with
      | nil =>
        rw [printObjRest, sizeO]
        simp
      | cons k v tl =>
        rw [sizeO] at hsize ⊢
        rw [printObjRest]
        simp only [List.length_cons, List.length_append]
        have h1 := ihV v (by omega)
        have h2 := ihOR tl (by omega)
        omega

theorem loads_dumps (v : Json) : loads (dumps v) = some v := by
  unfold loads dumps
  have hsize : sizeJ v < (printVal v).length + 1 := by
    have h := (size_le_print_length (sizeJ v)).1 v (le_refl _)
    omega
  have h := (parse_print ((printVal v).length + 1)).1 v [] hsize numDelim_nil
  rw [List.append_nil] at h
  show (match parseVal ((printVal v).length + 1) (printVal v) with
    | some (v, rest) => if skipWs rest = [] then some v else none
    | none => none) = some v
  rw [h]
  simp [skipWs]

/-- `RPWhyBaseline.save_baseline`: serialise the snapshot document and
overwrite the baseline file.  The file system is the single `Option String`
slot holding the file's content (`none`: no file); the caught `IOError` in
the source only reports, so the modelled write succeeds. -/
def save_baseline (doc : Json) (_store : Option String) : Option String :=
  some (dumps doc)

/-- `RPWhyBaseline.load_baseline`: `none` when the file is absent or its
content fails to parse (`IOError` / `json.JSONDecodeError`). -/
def load_baseline (store : Option String) : Option Json :=
  match store with
  | none => none
  | some s => loads s

/-- C8: saving any JSON snapshot document and loading it back reproduces the
identical document. -/
theorem save_load_roundtrip :
    ∀ (doc : Json) (store : Option String),
      load_baseline (save_baseline doc store) = some doc := by
  intro doc store
  show loads (dumps doc) = some doc
  exact loads_dumps doc

/-- The `init` branch of `main`: regenerate the baseline and persist only a
successful snapshot (`if baseline and 'error' not in baseline`).  `encode`
stands for the dictionary-to-JSON reading of the snapshot that `json.dump`
performs inside `save_baseline`. -/
def init_command (encode : Baseline → Json) (result : Option BaselineResult)
    (store : Option String) : Option String × String :=
  match result with
  | some (.ok b) => (save_baseline (encode b) store, "baseline generated")
  | some (.noData m) => (store, m)
  | none => (store, "Failed to generate baseline")

/-- C9: a failed store access makes `generate_baseline` return `None`, zero
qualifying sessions make it return the structured no-data error, and in both
cases the `init` command never calls `save_baseline`, leaving the persisted
snapshot unchanged. -/
theorem init_preserves_snapshot_on_failure :
    (∀ (summary : Summary) (prompts : List PromptRecord)
        (directories : List (String × DirInfo)) (weekKey : String → Option String)
        (reSearch : String → String → Option String) (now : String),
      generate_baseline false summary prompts directories weekKey reSearch now = none)
    ∧ (∀ (summary : Summary) (prompts : List PromptRecord)
        (directories : List (String × DirInfo)) (weekKey : String → Option String)
        (reSearch : String → String → Option String) (now : String),
      summary.sessions = 0 →
        generate_baseline true summary prompts directories weekKey reSearch now
          = some (.noData "No sessions found in database"))
    ∧ (∀ (encode : Baseline → Json) (result : Option BaselineResult)
        (store : Option String),
      (result = none ∨ ∃ m, result = some (.noData m)) →
        (init_command encode result store).1 = store) := by
  refine ⟨?_, ?_, ?_⟩
  · intro summary prompts directories weekKey reSearch now
    simp [generate_baseline]
  · intro summary prompts directories weekKey reSearch now h
    simp [generate_baseline, h]
  · intro encode result store h
    rcases h with rfl | ⟨m, rfl⟩
    · rfl
    · rfl
